/-
Verification of the mm.c explicit-free-list allocator (first fit, boundary
tags, circular doubly-linked free list anchored at a dummy sentinel block).

The embedding below is a shallow model of src/mm.c on a 64-bit machine:
WSIZE = sizeof(void *) = 8, DSIZE = 16.  Memory is a word map from byte
addresses to word values (every access in mm.c is a word access at an
8-aligned address; memcpy is only called with a length that is a multiple
of 8, so it is modelled as a word-wise copy).  Pointers are byte addresses
(Nat); nullable pointers are Option Nat.  The sbrk-style region extender
is modelled by a break counter and a fixed limit: growing past the limit
is the error sentinel, exactly the condition under which memlib's
mem_sbrk returns (void *)-1.  size_t arithmetic that can wrap is taken
modulo 2^64 at the spots where the C source can wrap.
-/
import Mathlib

namespace MM

/-- Word size in bytes: sizeof(void *) on the 64-bit target. -/
def WSIZE : Nat := 8

/-- Doubleword size in bytes: 2 * WSIZE. -/
def DSIZE : Nat := 16

/-- Extend the heap by this amount (bytes): 1 << 12. -/
def CHUNKSIZE : Nat := 4096

/-- PACK(size, alloc) = ((size) | (alloc)). -/
def PACK (size alloc : Nat) : Nat := size ||| alloc

/-- One word store: the result of `*(uintptr_t *)p = val` on a word map. -/
def PUT (m : Nat → Nat) (p v : Nat) : Nat → Nat := fun a => if a = p then v else m a

/-- GET_SIZE(p) = GET(p) & ~(DSIZE - 1): clearing the low four bits of a
64-bit word is subtracting its remainder mod 16. -/
def GET_SIZE (m : Nat → Nat) (p : Nat) : Nat := m p - m p % 16

/-- GET_ALLOC(p) = GET(p) & 0x1. -/
def GET_ALLOC (m : Nat → Nat) (p : Nat) : Nat := m p % 2

/-- HDRP(bp) = (char *)bp - WSIZE. -/
def HDRP (bp : Nat) : Nat := bp - WSIZE

/-- FTRP(bp) = (char *)bp + GET_SIZE(HDRP(bp)) - DSIZE. -/
def FTRP (m : Nat → Nat) (bp : Nat) : Nat := bp + GET_SIZE m (HDRP bp) - DSIZE

/-- NEXT_BLKP(bp) = (char *)bp + GET_SIZE((char *)bp - WSIZE). -/
def NEXT_BLKP (m : Nat → Nat) (bp : Nat) : Nat := bp + GET_SIZE m (bp - WSIZE)

/-- PREV_BLKP(bp) = (char *)bp - GET_SIZE((char *)bp - DSIZE). -/
def PREV_BLKP (m : Nat → Nat) (bp : Nat) : Nat := bp - GET_SIZE m (bp - DSIZE)

/-- ROUND(size) = ((size) + (DSIZE - 1)) & ~0x7 in 64-bit size_t arithmetic:
add 15 (wrapping), then clear the low three bits. -/
def ROUND (size : Nat) : Nat :=
  let t := (size + (DSIZE - 1)) % 2 ^ 64
  t - t % 8

/-- Unsigned 64-bit subtraction a - b on size_t values. -/
def sub64 (a b : Nat) : Nat := (a + 2 ^ 64 - b) % 2 ^ 64

/-- Allocator state: the word memory, the current break, the extender's
capacity limit (growing past it is mem_sbrk's error), and the two globals
heap_listp and free_listp of mm.c.  free_listp is the address of the
dummy head block's payload; its prev link lives at free_listp and its
next link at free_listp + WSIZE, matching struct free_blk. -/
structure Heap where
  mem : Nat → Nat
  brk : Nat
  limit : Nat
  heap_listp : Nat
  free_listp : Nat

/-- Store one word into a heap state. -/
def putMem (h : Heap) (p v : Nat) : Heap := { h with mem := PUT h.mem p v }

/-- mem_sbrk(incr): return the old break and grow the region, or fail
(the (void *)-1 sentinel) when the request exceeds the region limit. -/
def mem_sbrk (h : Heap) (incr : Nat) : Option (Nat × Heap) :=
  if h.brk + incr ≤ h.limit then some (h.brk, { h with brk := h.brk + incr }) else none

/-- add_free(bp): insert bp at the head of the circular free list.
The four statements of the source, in order:
  ((struct free_blk *)(free_listp->next))->prev = bp;
  bp->next = free_listp->next;
  bp->prev = free_listp;
  free_listp->next = bp; -/
def add_free (h : Heap) (bp : Nat) : Heap :=
  let m1 := PUT h.mem (h.mem (h.free_listp + WSIZE)) bp
  let m2 := PUT m1 (bp + WSIZE) (m1 (h.free_listp + WSIZE))
  let m3 := PUT m2 bp h.free_listp
  let m4 := PUT m3 (h.free_listp + WSIZE) bp
  { h with mem := m4 }

/-- remove_free(bp): splice bp out of the circular free list.
  ((struct free_blk *)(bp->next))->prev = bp->prev;
  ((struct free_blk *)(bp->prev))->next = bp->next; -/
def remove_free (h : Heap) (bp : Nat) : Heap :=
  let m1 := PUT h.mem (h.mem (bp + WSIZE)) (h.mem bp)
  let m2 := PUT m1 (m1 bp + WSIZE) (m1 (bp + WSIZE))
  { h with mem := m2 }

/-- The for loop of find_fit: bp starts at free_listp->next; the guard
GET_ALLOC(HDRP(bp)) == 0 is tested before each body; the body returns bp
on a fit, returns NULL at the sentinel, and otherwise steps to bp->next.
Fuel bounds the walk (the C loop does not terminate on a corrupted list). -/
def find_fit_go (h : Heap) (asize : Nat) : Nat → Nat → Option Nat
  | 0, _ => none
  | Nat.succ fuel, bp =>
    if GET_ALLOC h.mem (HDRP bp) = 0 then
      if asize ≤ GET_SIZE h.mem (HDRP bp) then some bp
      else if bp = h.free_listp then none
      else find_fit_go h asize fuel (h.mem (bp + WSIZE))
    else none

/-- find_fit(asize): first-fit search of the free list. -/
def find_fit (h : Heap) (asize fuel : Nat) : Option Nat :=
  find_fit_go h asize fuel (h.mem (h.free_listp + WSIZE))

/-- place(bp, asize): allocate asize bytes at free block bp, splitting when
the remainder (csize - asize, computed in size_t) is at least 3 * DSIZE.
The FTRP of each store is computed against the memory at that program
point, as in the source (the header has already been rewritten). -/
def place (h : Heap) (bp asize : Nat) : Heap :=
  let csize := GET_SIZE h.mem (HDRP bp)
  if 3 * DSIZE ≤ sub64 csize asize then
    let h1 := putMem h (HDRP bp) (PACK asize 1)
    let h2 := putMem h1 (FTRP h1.mem bp) (PACK asize 1)
    let h3 := remove_free h2 bp
    let bp2 := NEXT_BLKP h3.mem bp
    let h4 := putMem h3 (HDRP bp2) (PACK (sub64 csize asize) 0)
    let h5 := putMem h4 (FTRP h4.mem bp2) (PACK (sub64 csize asize) 0)
    add_free h5 bp2
  else
    let h1 := putMem h (HDRP bp) (PACK csize 1)
    let h2 := putMem h1 (FTRP h1.mem bp) (PACK csize 1)
    remove_free h2 bp

/-- coalesce(bp): four-case boundary-tag merge of a newly freed block with
its physical neighbors; each macro is re-evaluated against the memory at
its program point, following the source statement by statement. -/
def coalesce (h : Heap) (bp : Nat) : Nat × Heap :=
  let next_alloc := GET_ALLOC h.mem (HDRP (NEXT_BLKP h.mem bp))
  let prev_alloc := GET_ALLOC h.mem (FTRP h.mem (PREV_BLKP h.mem bp))
  let size := GET_SIZE h.mem (HDRP bp)
  if prev_alloc ≠ 0 ∧ next_alloc ≠ 0 then
    (bp, add_free h bp)
  else if prev_alloc ≠ 0 ∧ next_alloc = 0 then
    let size2 := size + GET_SIZE h.mem (HDRP (NEXT_BLKP h.mem bp))
    let h1 := remove_free h (NEXT_BLKP h.mem bp)
    let h2 := putMem h1 (HDRP bp) (PACK size2 0)
    let h3 := putMem h2 (FTRP h2.mem bp) (PACK size2 0)
    (bp, add_free h3 bp)
  else if prev_alloc = 0 ∧ next_alloc ≠ 0 then
    let size2 := size + GET_SIZE h.mem (HDRP (PREV_BLKP h.mem bp))
    let bp2 := PREV_BLKP h.mem bp
    let h1 := remove_free h bp2
    let h2 := putMem h1 (HDRP bp2) (PACK size2 0)
    let h3 := putMem h2 (FTRP h2.mem bp2) (PACK size2 0)
    (bp2, add_free h3 bp2)
  else
    let size2 := size + GET_SIZE h.mem (HDRP (PREV_BLKP h.mem bp)) +
      GET_SIZE h.mem (FTRP h.mem (NEXT_BLKP h.mem bp))
    let h1 := remove_free h (PREV_BLKP h.mem bp)
    let h2 := remove_free h1 (NEXT_BLKP h1.mem bp)
    let bp2 := PREV_BLKP h2.mem bp
    let h3 := putMem h2 (HDRP bp2) (PACK size2 0)
    let h4 := putMem h3 (FTRP h3.mem bp2) (PACK size2 0)
    (bp2, add_free h4 bp2)

/-- extend_heap(words): round the word count up to even, sbrk that many
bytes, frame the new space as a free block, write the new epilogue, and
coalesce with the old tail.  Returns none exactly when mem_sbrk fails,
in which case no store has been performed. -/
def extend_heap (h : Heap) (words : Nat) : Option (Nat × Heap) :=
  let size := (if words % 2 = 1 then (words + 1) * WSIZE else words * WSIZE) % 2 ^ 64
  match mem_sbrk h size with
  | none => none
  | some (bp, h1) =>
    let h2 := putMem h1 (HDRP bp) (PACK size 0)
    let h3 := putMem h2 (FTRP h2.mem bp) (PACK size 0)
    let h4 := putMem h3 (HDRP (NEXT_BLKP h3.mem bp)) (PACK 0 1)
    some (coalesce h4 bp)

/-- The all-zero pristine state of the region extender. -/
def initialHeap (limit : Nat) : Heap :=
  { mem := fun _ => 0, brk := 0, limit := limit, heap_listp := 0, free_listp := 0 }

/-- mm_init(): build the prelude (padding, prologue, dummy free-list head,
epilogue), then extend by CHUNKSIZE bytes.  none models the -1 return. -/
def mm_init (limit : Nat) : Option Heap :=
  match mem_sbrk (initialHeap limit) (8 * WSIZE) with
  | none => none
  | some (p, h1) =>
    let fl := p + 4 * WSIZE
    let h2 := { h1 with free_listp := fl }
    let h3 := putMem h2 p 0
    let h4 := putMem h3 (p + 1 * WSIZE) (PACK DSIZE 1)
    let h5 := putMem h4 (p + 2 * WSIZE) (PACK DSIZE 1)
    let h6 := putMem h5 (p + 3 * WSIZE) (PACK (4 * WSIZE) 1)
    let h7 := putMem h6 (p + 4 * WSIZE) fl
    let h8 := putMem h7 (p + 5 * WSIZE) fl
    let h9 := putMem h8 (p + 6 * WSIZE) (PACK (4 * WSIZE) 1)
    let h10 := putMem h9 (p + 7 * WSIZE) (PACK 0 1)
    let h11 := { h10 with heap_listp := p + 2 * WSIZE }
    match extend_heap h11 (CHUNKSIZE / WSIZE) with
    | none => none
    | some (_, h12) => some h12

/-- The adjusted block size computed by mm_malloc, including the two
hard-coded overrides for requests of exactly 448 and 112 bytes.  The sum
size + DSIZE + (DSIZE - 1) and the product are size_t arithmetic. -/
def malloc_asize (size : Nat) : Nat :=
  let a1 := if size ≤ DSIZE then 2 * DSIZE
    else (DSIZE * (((size + DSIZE + (DSIZE - 1)) % 2 ^ 64) / DSIZE)) % 2 ^ 64
  let a2 := if size = 448 then 528 else a1
  if size = 112 then 144 else a2

/-- The no-fit tail of mm_malloc: extend the heap by
MAX(asize, CHUNKSIZE) / WSIZE words and place, or return NULL leaving the
state untouched when the extension fails. -/
def mm_malloc_nofit (h : Heap) (asize : Nat) : Option Nat × Heap :=
  let extendsize := max asize CHUNKSIZE
  match extend_heap h (extendsize / WSIZE) with
  | none => (none, h)
  | some (bp, h1) => (some bp, place h1 bp asize)

/-- mm_malloc(size): size == 0 (the only size_t case of size <= 0) returns
NULL; otherwise first fit then place, else extend then place. -/
def mm_malloc (h : Heap) (size fuel : Nat) : Option Nat × Heap :=
  if size = 0 then (none, h)
  else
    let asize := malloc_asize size
    match find_fit h asize fuel with
    | some bp => (some bp, place h bp asize)
    | none => mm_malloc_nofit h asize

/-- mm_free(bp): NULL is a no-op; otherwise clear both allocation bits and
coalesce. -/
def mm_free (h : Heap) (ptr : Option Nat) : Heap :=
  match ptr with
  | none => h
  | some bp =>
    let size := GET_SIZE h.mem (HDRP bp)
    let h1 := putMem h (HDRP bp) (PACK size 0)
    let h2 := putMem h1 (FTRP h1.mem bp) (PACK size 0)
    (coalesce h2 bp).2

/-- The adjusted size of mm_realloc: MAX(ROUND(size) + DSIZE, 24). -/
def realloc_asize (size : Nat) : Nat := max ((ROUND size + DSIZE) % 2 ^ 64) 24

/-- memcpy(dst, src, 8 * n) as a word-wise ascending copy.  mm_realloc is
the only caller and always passes a length that is a multiple of WSIZE.
(The source's copy can overlap; an ascending word copy resolves that
undefined behavior the way a forward byte copy would.) -/
def memcpyWords (m : Nat → Nat) (dst src : Nat) : Nat → (Nat → Nat)
  | 0 => m
  | Nat.succ n => memcpyWords (PUT m dst (m src)) (dst + WSIZE) (src + WSIZE) n

/-- mm_realloc(ptr, size), statement by statement from the source:
size == 0 frees; ptr == NULL calls mm_malloc(asize) (note: asize, not
size); asize <= oldsize returns ptr; a free and large enough next block
is absorbed in place; otherwise mm_malloc(asize), a second place on the
returned block, memcpy of asize bytes, free of the old block.  In that
last branch the source dereferences newptr without a NULL check; when
mm_malloc fails the model returns NULL where the C is undefined. -/
def mm_realloc (h : Heap) (ptr : Option Nat) (size fuel : Nat) : Option Nat × Heap :=
  let asize := realloc_asize size
  if size = 0 then
    (none, mm_free h ptr)
  else
    match ptr with
    | none => mm_malloc h asize fuel
    | some p =>
      let oldsize := GET_SIZE h.mem (HDRP p)
      if asize ≤ oldsize then
        (some p, h)
      else
        let esize := oldsize + GET_SIZE h.mem (HDRP (NEXT_BLKP h.mem p))
        if GET_ALLOC h.mem (HDRP (NEXT_BLKP h.mem p)) = 0 ∧ asize ≤ esize then
          let h1 := remove_free h (NEXT_BLKP h.mem p)
          let h2 := putMem h1 (HDRP p) (PACK esize 1)
          let h3 := putMem h2 (FTRP h2.mem p) (PACK esize 1)
          (some p, h3)
        else
          match mm_malloc h asize fuel with
          | (none, h1) => (none, h1)
          | (some np, h1) =>
            let h2 := place h1 np asize
            let h3 := { h2 with mem := memcpyWords h2.mem np p (asize / WSIZE) }
            let h4 := mm_free h3 (some p)
            (some np, h4)

/-- The blocks on the free list in walk order: follow next links from
free_listp->next until the walk returns to the sentinel (or fuel ends). -/
def freeListWalk (h : Heap) : Nat → Nat → List Nat
  | 0, _ => []
  | Nat.succ f, bp =>
    if bp = h.free_listp then [] else bp :: freeListWalk h f (h.mem (bp + WSIZE))

/-- The free list of a state, as a list of block payload addresses. -/
def freeList (h : Heap) (fuel : Nat) : List Nat :=
  freeListWalk h fuel (h.mem (h.free_listp + WSIZE))

/-! Spec-side formulas.  These two definitions follow the specification's
words, for comparison against the source-derived sizing functions. -/

/-- Exact round_up(n, k) from the specification text. -/
def roundUp (n k : Nat) : Nat := k * ((n + k - 1) / k)

/-- Modelled from the spec: the allocation sizing formula
asize = max(2 * DSIZE, round_up(n + 2 * WSIZE, 2 * WSIZE)). -/
def spec_malloc_asize (n : Nat) : Nat :=
  max (2 * DSIZE) (roundUp (n + 2 * WSIZE) (2 * WSIZE))

/-- Modelled from the spec: the reallocation sizing formula claimed by C4,
asize = max(round_up(size, 8) + DSIZE, 24). -/
def spec_realloc_asize (size : Nat) : Nat := max (roundUp size 8 + DSIZE) 24

/-! Basic lemmas about the memory primitives. -/

theorem PUT_same (m : Nat → Nat) (p v : Nat) : PUT m p v p = v := by
  simp [PUT]

theorem PUT_other (m : Nat → Nat) (p v a : Nat) (h : a ≠ p) : PUT m p v a = m a := by
  simp [PUT, h]

theorem pack_zero (s : Nat) : PACK s 0 = s := by
  simp [PACK]

theorem pack_one_even (s : Nat) (h : s % 2 = 0) : PACK s 1 = s + 1 := by
  obtain ⟨t, rfl⟩ : ∃ t, s = 2 * t := ⟨s / 2, by omega⟩
  have h1 : (2 * t : Nat) = Nat.bit false t := by
    rw [Nat.bit_val]; simp
  have h2 : (1 : Nat) = Nat.bit true 0 := by
    rw [Nat.bit_val]; simp
  rw [PACK, h1, h2, Nat.lor_bit]
  rw [Nat.bit_val]
  simp

/-- GET_SIZE of a header word holding size s (a multiple of 16) with
allocation bit a. -/
theorem GET_SIZE_of (m : Nat → Nat) (p s a : Nat) (hm : m p = s + a)
    (hs : s % 16 = 0) (ha : a ≤ 1) : GET_SIZE m p = s := by
  simp only [GET_SIZE, hm]; omega

theorem GET_ALLOC_of (m : Nat → Nat) (p s a : Nat) (hm : m p = s + a)
    (hs : s % 16 = 0) (ha : a ≤ 1) : GET_ALLOC m p = a := by
  simp only [GET_ALLOC, hm]; omega

theorem sub64_of_le (a b : Nat) (hle : b ≤ a) (hb : a < 2 ^ 64) :
    sub64 a b = a - b := by
  simp only [sub64]
  have e : (2 : Nat) ^ 64 = 18446744073709551616 := by norm_num
  rw [e] at hb ⊢
  omega

/-! The concrete scenario used by the counterexample and bug theorems:
init with an 8192-byte region, p = malloc(16) (payload 64), q = malloc(16)
(payload 96), two user stores into p's payload, then realloc(p, 100).
realloc takes the allocate-new-copy-free path: the inner mm_malloc places
a 144-byte block at payload 128 and splits off a free remainder of 3888
bytes at payload 272; realloc's own second place(newptr, asize) then
re-runs remove_free on block 128, whose stale links point at the
sentinel, splicing the just-added remainder 272 out of the free list. -/

/-- The heap right after mm_init with an 8192-byte extender limit. -/
def heap0 : Heap := (mm_init 8192).getD (initialHeap 0)

/-- After p = mm_malloc(16): block at payload 64. -/
def st1 : Heap := (mm_malloc heap0 16 50).2

/-- After q = mm_malloc(16): block at payload 96. -/
def st2 : Heap := (mm_malloc st1 16 50).2

/-- The user writes 111 and 222 into p's two payload words. -/
def st2u : Heap := putMem (putMem st2 64 111) 72 222

/-- After r = mm_realloc(p, 100). -/
def st3 : Heap := (mm_realloc st2u (some 64) 100 50).2

/-- C1: the free-list membership invariant is broken by the code.  After
init; p = malloc(16); q = malloc(16); realloc(p, 100) — the
allocate-new-copy-free path — the block at payload 272 (header at 264,
footer at 4144) has size 3888 and allocated bit 0, but the free list
holds only [64]: realloc's second place call re-ran remove_free on the
already-placed block 128, whose stale links pointed at the sentinel, and
spliced the freshly added remainder 272 out of the list.  So a free block
exists that appears in the circular free list zero times, not once. -/
theorem c1_free_list_invariant_broken :
    (mm_realloc st2u (some 64) 100 50).1 = some 128 ∧
    freeList st3 10 = [64] ∧
    st3.mem 264 = 3888 ∧ st3.mem 4144 = 3888 ∧
    GET_ALLOC st3.mem 264 = 0 ∧ 272 ∉ freeList st3 10 := by
  decide

/-- C2: the copy in the reallocate path is not payload-only and not
min(oldsize - 2 * WSIZE, size) bytes.  In the same scenario the old block
has oldsize 32, so the spec says to copy min(32 - 16, 100) = 16 bytes —
the two payload words 111 and 222.  The code instead copies
asize = 128 bytes: the new payload's third word (address 144) receives
the old block's footer tag 33 and its fourth word (address 152) receives
the next block's header tag 33, both read from outside the old payload;
a spec-conforming copy leaves those words untouched (they were 0). -/
theorem c2_realloc_copy_overrun :
    (mm_realloc st2u (some 64) 100 50).1 = some 128 ∧
    st3.mem 128 = 111 ∧ st3.mem 136 = 222 ∧
    st3.mem 144 = 33 ∧ st3.mem 152 = 33 := by
  decide

/-- C3 counterexample: the adjusted sizes for requests of exactly 448 and
112 bytes are the hard-coded 528 and 144, not the claimed formula's
values max(2 * DSIZE, round_up(n + 2 * WSIZE, 2 * WSIZE)) = 464 and 128. -/
theorem c3_counterexample :
    malloc_asize 448 = 528 ∧ spec_malloc_asize 448 = 464 ∧
    malloc_asize 448 ≠ spec_malloc_asize 448 ∧
    malloc_asize 112 = 144 ∧ spec_malloc_asize 112 = 128 ∧
    malloc_asize 112 ≠ spec_malloc_asize 112 := by
  decide

/-- C4 counterexample: ROUND adds DSIZE - 1 = 15 but masks with ~0x7, so
for size = 1 the code computes asize = max(16 + 16, 24) = 32, while the
claimed formula max(round_up(1, 8) + DSIZE, 24) = max(8 + 16, 24) = 24. -/
theorem c4_counterexample :
    realloc_asize 1 = 32 ∧ spec_realloc_asize 1 = 24 ∧
    realloc_asize 1 ≠ spec_realloc_asize 1 := by
  decide

/-- C4 amended: for every size with size + 31 < 2^64, reallocate computes
asize = max(round_up(size + WSIZE, 8) + DSIZE, 24) — the extra WSIZE
comes from ROUND's mismatched mask — and uses it for the shrink decision:
whenever asize fits in the current block, reallocate returns the pointer
and the heap unchanged. -/
theorem c4_realloc_sizing (size : Nat) (hb : size + 31 < 2 ^ 64) :
    realloc_asize size = max (roundUp (size + WSIZE) 8 + DSIZE) 24 ∧
    ∀ (h : Heap) (p fuel : Nat), size ≠ 0 →
      realloc_asize size ≤ GET_SIZE h.mem (HDRP p) →
      mm_realloc h (some p) size fuel = (some p, h) := by
  have e : (2 : Nat) ^ 64 = 18446744073709551616 := by norm_num
  constructor
  · simp only [realloc_asize, ROUND, roundUp, DSIZE, WSIZE, e] at *
    omega
  · intro h p fuel hs hfit
    simp only [mm_realloc, if_neg hs, if_pos hfit]

/-- C4 witness. -/
theorem c4_witness :
    realloc_asize 40 = max (roundUp (40 + WSIZE) 8 + DSIZE) 24 ∧
    mm_realloc st1 (some 64) 8 10 = (some 64, st1) := by
  refine ⟨(c4_realloc_sizing 40 (by norm_num)).1, ?_⟩
  exact (c4_realloc_sizing 8 (by norm_num)).2 st1 64 10 (by decide) (by decide)

/-- C5 counterexample: with the post-init heap, realloc(NULL, 8) and
malloc(8) both return pointer 64 but leave different heaps: realloc
passes asize = 32 to mm_malloc, which re-adjusts it to 48, so the block
header at 56 reads 49; a direct malloc(8) writes 33 there. -/
theorem c5_counterexample :
    (mm_realloc heap0 none 8 10).1 = some 64 ∧ (mm_malloc heap0 8 10).1 = some 64 ∧
    (mm_realloc heap0 none 8 10).2.mem 56 = 49 ∧ (mm_malloc heap0 8 10).2.mem 56 = 33 ∧
    (mm_realloc heap0 none 8 10).2.mem 56 ≠ (mm_malloc heap0 8 10).2.mem 56 := by
  decide

/-- C5 amended: for every non-zero size, reallocate(null, size) is
equivalent — same result, same final state — to allocate(asize), where
asize = max(ROUND(size) + DSIZE, 24) is reallocate's own adjusted size,
not to allocate(size). -/
theorem c5_realloc_null (h : Heap) (size fuel : Nat) (hs : size ≠ 0) :
    mm_realloc h none size fuel = mm_malloc h (realloc_asize size) fuel := by
  simp only [mm_realloc, if_neg hs]

/-- C5 witness. -/
theorem c5_witness : mm_realloc heap0 none 8 10 = mm_malloc heap0 (realloc_asize 8) 10 :=
  c5_realloc_null heap0 8 10 (by decide)

/-! The circular doubly-linked free list, as a verification-side
representation predicate.  chainb m a l e holds when, starting at node a,
the next links (at node + 8) run through l in order and reach e, and each
prev link (at the node address) points back; the free list of a state is
chainb m free_listp l free_listp.  sep u v says two nodes are far enough
apart that their four link words do not alias. -/

/-- The link words (prev at the node address, next at the node address
plus 8) of two distinct free-list nodes do not overlap. -/
def sep (u v : Nat) : Prop := u ≠ v ∧ u + 8 ≠ v ∧ v + 8 ≠ u

instance sep_decidable (u v : Nat) : Decidable (sep u v) := by
  unfold sep
  infer_instance

theorem sep_symm {u v : Nat} (h : sep u v) : sep v u :=
  ⟨fun e => h.1 e.symm, h.2.2, h.2.1⟩

/-- Doubly-linked chain from a through l to e. -/
def chainb (m : Nat → Nat) : Nat → List Nat → Nat → Bool
  | a, [], e => decide (m (a + 8) = e) && decide (m e = a)
  | a, x :: xs, e => decide (m (a + 8) = x) && decide (m x = a) && chainb m x xs e

theorem chainb_nil_iff (m : Nat → Nat) (a e : Nat) :
    chainb m a [] e = true ↔ m (a + 8) = e ∧ m e = a := by
  simp [chainb]

theorem chainb_cons_iff (m : Nat → Nat) (a x e : Nat) (xs : List Nat) :
    chainb m a (x :: xs) e = true ↔
      m (a + 8) = x ∧ m x = a ∧ chainb m x xs e = true := by
  simp [chainb, and_assoc]

theorem chainb_head (m : Nat → Nat) (u e : Nat) (l : List Nat)
    (hc : chainb m u l e = true) : m (u + 8) = l.headD e := by
  cases l with
  | nil => exact ((chainb_nil_iff m u e).mp hc).1
  | cons x xs => exact ((chainb_cons_iff m u x e xs).mp hc).1

theorem getLastD_mem (l : List Nat) (d : Nat) : l.getLastD d ∈ d :: l := by
  induction l generalizing d with
  | nil => simp
  | cons a l ih =>
    rw [List.getLastD_cons]
    have := ih a
    simp at this ⊢
    tauto

theorem headD_mem (l : List Nat) (d : Nat) : l.headD d ∈ l ++ [d] := by
  cases l <;> simp

/-- Agreement of two memories on every link word of the chain carries the
chain across. -/
theorem chainb_congr (m m2 : Nat → Nat) (e : Nat) (l : List Nat) (a : Nat)
    (h1 : ∀ x ∈ a :: l, m2 (x + 8) = m (x + 8))
    (h2 : ∀ x ∈ l ++ [e], m2 x = m x) :
    chainb m2 a l e = chainb m a l e := by
  induction l generalizing a with
  | nil => simp [chainb, h1 a (by simp), h2 e (by simp)]
  | cons x xs ih =>
    have e1 := h1 a (by simp)
    have e2 := h2 x (by simp)
    have e3 : chainb m2 x xs e = chainb m x xs e := by
      apply ih
      · intro y hy
        apply h1; simp at hy ⊢; tauto
      · intro y hy
        apply h2; simp at hy ⊢; tauto
    simp only [chainb, e1, e2, e3]

/-- A store away from every link word of the chain preserves it. -/
theorem chainb_put (m : Nat → Nat) (p v e : Nat) (l : List Nat) (a : Nat)
    (h1 : ∀ x ∈ a :: l, x + 8 ≠ p)
    (h2 : ∀ x ∈ l ++ [e], x ≠ p) :
    chainb (PUT m p v) a l e = chainb m a l e := by
  apply chainb_congr
  · intro x hx; exact PUT_other m p v _ (h1 x hx)
  · intro x hx; exact PUT_other m p v _ (h2 x hx)

/-- The links of an interior chain node: its prev is the last node before
it and its next is the first node after it. -/
theorem chainb_split (m : Nat → Nat) (e x : Nat) (b : List Nat) :
    ∀ (a : List Nat) (u : Nat), chainb m u (a ++ x :: b) e = true →
    m x = a.getLastD u ∧ m (x + 8) = b.headD e := by
  intro a
  induction a with
  | nil =>
    intro u h
    rw [List.nil_append, chainb_cons_iff] at h
    exact ⟨h.2.1, chainb_head m x e b h.2.2⟩
  | cons a0 a' ih =>
    intro u h
    rw [List.cons_append, chainb_cons_iff] at h
    have := ih a0 h.2.2
    rw [List.getLastD_cons]
    exact this

/-- Splicing an interior node out of a doubly-linked chain: the two
stores of remove_free (next's prev gets x's prev, prev's next gets x's
next) rebuild the chain without x. -/
theorem chainb_remove (m : Nat → Nat) (x e : Nat) (b : List Nat) :
    ∀ (a : List Nat) (u : Nat),
    chainb m u (a ++ x :: b) e = true →
    List.Pairwise sep (u :: a ++ x :: b) →
    (∀ y ∈ a ++ x :: b, sep y e) →
    (u = e ∨ sep u e) →
    chainb (PUT (PUT m (m (x + 8)) (m x)) (m x + 8) (m (x + 8))) u (a ++ b) e = true := by
  intro a
  induction a with
  | nil =>
    intro u hc okL okE okUE
    rw [List.nil_append, chainb_cons_iff] at hc
    obtain ⟨hu8, hxu, hcb⟩ := hc
    rw [List.nil_append, hxu]
    have okLh := (List.pairwise_cons.mp okL).1
    have okL2 := (List.pairwise_cons.mp okL).2
    cases b with
    | nil =>
      rw [chainb_nil_iff] at hcb
      obtain ⟨hx8, hex⟩ := hcb
      rw [hx8, chainb_nil_iff]
      have hne : e ≠ u + 8 := by
        rcases okUE with h | h
        · omega
        · exact fun he => h.2.1 he.symm
      exact ⟨PUT_same _ _ _, by rw [PUT_other _ _ _ _ hne, PUT_same]⟩
    | cons y ys =>
      rw [chainb_cons_iff] at hcb
      obtain ⟨hx8, hyx, hcy⟩ := hcb
      rw [hx8, chainb_cons_iff]
      have sepuy : sep u y := okLh y (by simp)
      have okL3 := (List.pairwise_cons.mp okL2).2
      have sepyys : ∀ z ∈ ys, sep y z := (List.pairwise_cons.mp okL3).1
      refine ⟨PUT_same _ _ _, ?_, ?_⟩
      · rw [PUT_other _ _ _ _ (fun hh => sepuy.2.1 hh.symm), PUT_same]
      · have c1 : ∀ z ∈ y :: ys, z + 8 ≠ u + 8 := by
          intro z hz
          have : sep u z := okLh z (by simp at hz ⊢; tauto)
          have : z ≠ u := fun hh => this.1 hh.symm
          omega
        have c2 : ∀ z ∈ ys ++ [e], z ≠ u + 8 := by
          intro z hz
          simp at hz
          rcases hz with hz | hz
          · exact fun hh => (okLh z (by simp [hz])).2.1 hh.symm
          · subst hz
            rcases okUE with h | h
            · omega
            · exact fun hh => h.2.1 hh.symm
        have c3 : ∀ z ∈ y :: ys, z + 8 ≠ y := by
          intro z hz
          simp at hz
          rcases hz with hz | hz
          · omega
          · exact (sepyys z hz).2.2
        have c4 : ∀ z ∈ ys ++ [e], z ≠ y := by
          intro z hz
          simp at hz
          rcases hz with hz | hz
          · exact fun hh => (sepyys z hz).1 hh.symm
          · subst hz
            exact fun hh => (okE y (by simp)).1 hh.symm
        rw [chainb_put _ _ _ _ _ _ c1 c2, chainb_put _ _ _ _ _ _ c3 c4]
        exact hcy
  | cons a0 a' ih =>
    intro u hc okL okE okUE
    rw [List.cons_append, chainb_cons_iff] at hc
    obtain ⟨hu8, ha0, hcr⟩ := hc
    obtain ⟨hprv, hnxt⟩ := chainb_split m e x b a' a0 hcr
    have okLh := (List.pairwise_cons.mp okL).1
    have okL2 := (List.pairwise_cons.mp okL).2
    have okL2h := (List.pairwise_cons.mp okL2).1
    have hprvmem : m x ∈ a0 :: a' := hprv ▸ getLastD_mem a' a0
    have hnxtmem : m (x + 8) ∈ b ++ [e] := hnxt ▸ headD_mem b e
    have sepuprv : sep u (m x) := by
      apply okLh
      simp at hprvmem ⊢
      tauto
    have ha0prv : a0 ≠ m x + 8 := by
      simp at hprvmem
      rcases hprvmem with hh | hh
      · omega
      · exact fun he => (okL2h (m x) (by simp; tauto)).2.2 he.symm
    have hu8nxt : u + 8 ≠ m (x + 8) := by
      simp at hnxtmem
      rcases hnxtmem with hh | hh
      · exact (okLh (m (x + 8)) (by simp; tauto)).2.1
      · rw [hh]
        rcases okUE with h | h
        · omega
        · exact h.2.1
    have ha0nxt : a0 ≠ m (x + 8) := by
      simp at hnxtmem
      rcases hnxtmem with hh | hh
      · exact (okL2h (m (x + 8)) (by simp; tauto)).1
      · rw [hh]
        exact (okE a0 (by simp)).1
    rw [List.cons_append, chainb_cons_iff]
    refine ⟨?_, ?_, ?_⟩
    · have : u + 8 ≠ m x + 8 := fun hh => sepuprv.1 (by omega)
      rw [PUT_other _ _ _ _ this, PUT_other _ _ _ _ hu8nxt]
      exact hu8
    · rw [PUT_other _ _ _ _ ha0prv, PUT_other _ _ _ _ ha0nxt]
      exact ha0
    · apply ih a0 hcr okL2
      · intro y hy
        exact okE y (by simp at hy ⊢; tauto)
      · exact Or.inr (okE a0 (by simp))

/-- remove_free's memory as two explicit stores, when the block's link
words do not alias its successor node. -/
theorem remove_free_mem (h : Heap) (x : Nat)
    (h1 : x ≠ h.mem (x + 8)) (h2 : x + 8 ≠ h.mem (x + 8)) :
    (remove_free h x).mem =
      PUT (PUT h.mem (h.mem (x + 8)) (h.mem x)) (h.mem x + 8) (h.mem (x + 8)) := by
  simp only [remove_free, WSIZE]
  rw [PUT_other h.mem (h.mem (x + 8)) (h.mem x) x h1,
    PUT_other h.mem (h.mem (x + 8)) (h.mem x) (x + 8) h2]

/-- Words other than the two spliced link fields are untouched by
remove_free. -/
theorem remove_free_frame (h : Heap) (x t : Nat)
    (hx : x ≠ h.mem (x + 8))
    (ht1 : t ≠ h.mem (x + 8)) (ht2 : t ≠ h.mem x + 8) :
    (remove_free h x).mem t = h.mem t := by
  simp only [remove_free, WSIZE]
  rw [PUT_other h.mem (h.mem (x + 8)) (h.mem x) x hx]
  rw [PUT_other _ (h.mem x + 8) _ t ht2]
  exact PUT_other _ _ _ t ht1

/-- remove_free on a node of the free list yields the free list without
that node. -/
theorem remove_free_chainb (h : Heap) (x : Nat) (a b : List Nat)
    (hc : chainb h.mem h.free_listp (a ++ x :: b) h.free_listp = true)
    (hpw : List.Pairwise sep (h.free_listp :: a ++ x :: b)) :
    chainb (remove_free h x).mem h.free_listp (a ++ b) h.free_listp = true := by
  obtain ⟨hprv, hnxt⟩ := chainb_split h.mem h.free_listp x b a h.free_listp hc
  have hpwh := (List.pairwise_cons.mp hpw).1
  have hpw2 := (List.pairwise_cons.mp hpw).2
  have hnxtmem : h.mem (x + 8) ∈ b ++ [h.free_listp] := hnxt ▸ headD_mem b h.free_listp
  have sepxnxt : x ≠ h.mem (x + 8) ∧ x + 8 ≠ h.mem (x + 8) := by
    simp only [List.mem_append, List.mem_singleton] at hnxtmem
    rcases hnxtmem with hh | hh
    · have pxb := (List.pairwise_append.mp hpw2).2.1
      have : sep x (h.mem (x + 8)) := (List.pairwise_cons.mp pxb).1 _ hh
      exact ⟨this.1, this.2.1⟩
    · rw [hh]
      have := hpwh x (by simp)
      exact ⟨fun he => this.1 he.symm, this.2.2⟩
  rw [remove_free_mem h x sepxnxt.1 sepxnxt.2]
  apply chainb_remove h.mem x h.free_listp b a h.free_listp hc hpw
  · intro y hy
    exact sep_symm (hpwh y hy)
  · exact Or.inl rfl

/-- Words other than the four written link fields are untouched by
add_free. -/
theorem add_free_frame (h : Heap) (bp t : Nat)
    (h1 : t ≠ h.mem (h.free_listp + 8)) (h2 : t ≠ bp + 8)
    (h3 : t ≠ bp) (h4 : t ≠ h.free_listp + 8) :
    (add_free h bp).mem t = h.mem t := by
  simp only [add_free, WSIZE]
  rw [PUT_other _ (h.free_listp + 8) _ t h4, PUT_other _ bp _ t h3,
    PUT_other _ (bp + 8) _ t h2]
  exact PUT_other _ _ _ t h1

/-- add_free inserts a fresh node at the head of the free list. -/
theorem add_free_chainb (h : Heap) (bp : Nat) (l : List Nat)
    (hc : chainb h.mem h.free_listp l h.free_listp = true)
    (okL : List.Pairwise sep (h.free_listp :: l))
    (okB : ∀ z ∈ h.free_listp :: l, sep bp z) :
    chainb (add_free h bp).mem h.free_listp (bp :: l) h.free_listp = true := by
  have okLh := (List.pairwise_cons.mp okL).1
  have okL2 := (List.pairwise_cons.mp okL).2
  have sepbps : sep bp h.free_listp := okB _ (by simp)
  have hohne : h.free_listp + 8 ≠ h.mem (h.free_listp + 8) := by
    rw [chainb_head _ _ _ _ hc]
    have := headD_mem l h.free_listp
    simp only [List.mem_append, List.mem_singleton] at this
    rcases this with hh | hh
    · exact (okLh _ hh).2.1
    · rw [hh]; omega
  have hmem : (add_free h bp).mem =
      PUT (PUT (PUT (PUT h.mem (h.mem (h.free_listp + 8)) bp) (bp + 8)
        (h.mem (h.free_listp + 8))) bp h.free_listp) (h.free_listp + 8) bp := by
    simp only [add_free, WSIZE]
    rw [PUT_other h.mem (h.mem (h.free_listp + 8)) bp (h.free_listp + 8) hohne]
  rw [hmem, chainb_cons_iff]
  have hbpne : bp ≠ h.free_listp + 8 := fun hh => sepbps.2.2 hh.symm
  refine ⟨PUT_same _ _ _, by rw [PUT_other _ _ _ _ hbpne, PUT_same], ?_⟩
  cases l with
  | nil =>
    obtain ⟨hs8, hss⟩ := (chainb_nil_iff _ _ _).mp hc
    rw [hs8, chainb_nil_iff]
    constructor
    · have e1 : bp + 8 ≠ h.free_listp + 8 := fun hh => sepbps.1 (by omega)
      have e2 : bp + 8 ≠ bp := by omega
      rw [PUT_other _ _ _ _ e1, PUT_other _ _ _ _ e2, PUT_same]
    · have e1 : h.free_listp ≠ h.free_listp + 8 := by omega
      have e2 : h.free_listp ≠ bp := fun hh => sepbps.1 hh.symm
      have e3 : h.free_listp ≠ bp + 8 := fun hh => sepbps.2.1 hh.symm
      rw [PUT_other _ _ _ _ e1, PUT_other _ _ _ _ e2, PUT_other _ _ _ _ e3, PUT_same]
  | cons y ys =>
    obtain ⟨hy, hys, hcy⟩ := (chainb_cons_iff _ _ _ _ _).mp hc
    have sepsy : sep h.free_listp y := okLh y (by simp)
    have sepbpy : sep bp y := okB y (by simp)
    have sepys : ∀ z ∈ ys, sep y z := (List.pairwise_cons.mp okL2).1
    rw [hy, chainb_cons_iff]
    refine ⟨?_, ?_, ?_⟩
    · have e1 : bp + 8 ≠ h.free_listp + 8 := fun hh => sepbps.1 (by omega)
      have e2 : bp + 8 ≠ bp := by omega
      rw [PUT_other _ _ _ _ e1, PUT_other _ _ _ _ e2, PUT_same]
    · have e1 : y ≠ h.free_listp + 8 := fun hh => sepsy.2.1 hh.symm
      have e2 : y ≠ bp := fun hh => sepbpy.1 hh.symm
      have e3 : y ≠ bp + 8 := fun hh => sepbpy.2.1 hh.symm
      rw [PUT_other _ _ _ _ e1, PUT_other _ _ _ _ e2, PUT_other _ _ _ _ e3, PUT_same]
    · have c1 : ∀ z ∈ y :: ys, z + 8 ≠ h.free_listp + 8 := by
        intro z hz
        have : h.free_listp ≠ z := (okLh z hz).1
        omega
      have c2 : ∀ z ∈ ys ++ [h.free_listp], z ≠ h.free_listp + 8 := by
        intro z hz
        simp at hz
        rcases hz with hz | hz
        · exact fun hh => (okLh z (by simp [hz])).2.1 hh.symm
        · omega
      have c3 : ∀ z ∈ y :: ys, z + 8 ≠ bp := fun z hz => (okB z (by simp at hz ⊢; tauto)).2.2
      have c4 : ∀ z ∈ ys ++ [h.free_listp], z ≠ bp := by
        intro z hz
        simp at hz
        rcases hz with hz | hz
        · exact fun hh => (okB z (by simp [hz])).1 hh.symm
        · rw [hz]; exact fun hh => sepbps.1 hh.symm
      have c5 : ∀ z ∈ y :: ys, z + 8 ≠ bp + 8 := by
        intro z hz
        have : bp ≠ z := (okB z (by simp at hz ⊢; tauto)).1
        omega
      have c6 : ∀ z ∈ ys ++ [h.free_listp], z ≠ bp + 8 := by
        intro z hz
        simp at hz
        rcases hz with hz | hz
        · exact fun hh => (okB z (by simp [hz])).2.1 hh.symm
        · rw [hz]; exact fun hh => sepbps.2.1 hh.symm
      have c7 : ∀ z ∈ y :: ys, z + 8 ≠ y := by
        intro z hz
        simp at hz
        rcases hz with hz | hz
        · omega
        · exact (sepys z hz).2.2
      have c8 : ∀ z ∈ ys ++ [h.free_listp], z ≠ y := by
        intro z hz
        simp at hz
        rcases hz with hz | hz
        · exact fun hh => (sepys z hz).1 hh.symm
        · rw [hz]; exact sepsy.1
      rw [chainb_put _ _ _ _ _ _ c1 c2, chainb_put _ _ _ _ _ _ c3 c4,
        chainb_put _ _ _ _ _ _ c5 c6, chainb_put _ _ _ _ _ _ c7 c8]
      exact hcy

theorem putMem_mem (h : Heap) (p v : Nat) : (putMem h p v).mem = PUT h.mem p v := rfl

theorem GET_SIZE_put_eq (m : Nat → Nat) (p v : Nat) :
    GET_SIZE (PUT m p v) p = v - v % 16 := by
  rw [GET_SIZE, PUT_same]

theorem GET_SIZE_put_ne (m : Nat → Nat) (p v q : Nat) (h : q ≠ p) :
    GET_SIZE (PUT m p v) q = GET_SIZE m q := by
  rw [GET_SIZE, GET_SIZE, PUT_other _ _ _ _ h]

/-- In the split branch, place is exactly: header and footer of the
allocated front part, remove_free of bp, header and footer of the free
remainder, add_free of the remainder — with the concrete addresses the
source's macro chain computes. -/
theorem place_split_state (h : Heap) (bp asize csize : Nat)
    (hhdr : h.mem (bp - 8) = csize) (hc16 : csize % 16 = 0) (ha16 : asize % 16 = 0)
    (haz : 32 ≤ asize) (hle : asize ≤ csize) (hcb : csize < 2 ^ 64) (hbp : 16 ≤ bp)
    (hsplit : 48 ≤ csize - asize)
    (hl1 : bp ≠ h.mem (bp + 8))
    (hl2 : bp - 8 ≠ h.mem (bp + 8)) (hl3 : bp - 8 ≠ h.mem bp + 8) :
    place h bp asize =
      add_free (putMem (putMem (remove_free (putMem (putMem h (bp - 8) (asize + 1))
        (bp + asize - 16) (asize + 1)) bp) (bp + asize - 8) (csize - asize))
        (bp + csize - 16) (csize - asize)) (bp + asize) := by
  have hpack1 : PACK asize 1 = asize + 1 := pack_one_even asize (by omega)
  have hpack0 : PACK (csize - asize) 0 = csize - asize := pack_zero _
  have hcs : GET_SIZE h.mem (HDRP bp) = csize := by
    simp only [HDRP, WSIZE, GET_SIZE, hhdr]; omega
  have hsub : sub64 csize asize = csize - asize := sub64_of_le csize asize hle hcb
  simp only [place, hcs, hsub, hpack1, hpack0]
  rw [if_pos (show 3 * DSIZE ≤ csize - asize by simp only [DSIZE]; omega)]
  simp only [HDRP, FTRP, NEXT_BLKP, WSIZE, DSIZE]
  have r1 : GET_SIZE (putMem h (bp - 8) (asize + 1)).mem (bp - 8) = asize := by
    rw [putMem_mem, GET_SIZE_put_eq]; omega
  rw [r1]
  have hm2a : (putMem (putMem h (bp - 8) (asize + 1)) (bp + asize - 16) (asize + 1)).mem
      (bp + 8) = h.mem (bp + 8) := by
    rw [putMem_mem, putMem_mem, PUT_other _ _ _ _ (by omega), PUT_other _ _ _ _ (by omega)]
  have hm2b : (putMem (putMem h (bp - 8) (asize + 1)) (bp + asize - 16) (asize + 1)).mem
      bp = h.mem bp := by
    rw [putMem_mem, putMem_mem, PUT_other _ _ _ _ (by omega), PUT_other _ _ _ _ (by omega)]
  have hm3 : (remove_free (putMem (putMem h (bp - 8) (asize + 1)) (bp + asize - 16)
      (asize + 1)) bp).mem (bp - 8) = asize + 1 := by
    rw [remove_free_frame _ bp (bp - 8) (by rw [hm2a]; exact hl1) (by rw [hm2a]; exact hl2)
      (by rw [hm2b]; exact hl3)]
    rw [putMem_mem, putMem_mem, PUT_other _ _ _ _ (by omega), PUT_same]
  have r2 : GET_SIZE (remove_free (putMem (putMem h (bp - 8) (asize + 1)) (bp + asize - 16)
      (asize + 1)) bp).mem (bp - 8) = asize := by
    rw [GET_SIZE, hm3]; omega
  rw [r2]
  have r3 : GET_SIZE (putMem (remove_free (putMem (putMem h (bp - 8) (asize + 1))
      (bp + asize - 16) (asize + 1)) bp) (bp + asize - 8) (csize - asize)).mem
      (bp + asize - 8) = csize - asize := by
    rw [putMem_mem, GET_SIZE_put_eq]; omega
  rw [r3]
  have r4 : bp + asize + (csize - asize) - 16 = bp + csize - 16 := by omega
  rw [r4]

/-- In the no-split branch, place is exactly: header and footer of the
whole block with the allocated bit, then remove_free of bp. -/
theorem place_whole_state (h : Heap) (bp asize csize : Nat)
    (hhdr : h.mem (bp - 8) = csize) (hc16 : csize % 16 = 0)
    (hle : asize ≤ csize) (hcb : csize < 2 ^ 64) (hcz : 32 ≤ csize) (hbp : 16 ≤ bp)
    (hsmall : csize - asize < 48) :
    place h bp asize =
      remove_free (putMem (putMem h (bp - 8) (csize + 1)) (bp + csize - 16) (csize + 1)) bp := by
  have hpack1 : PACK csize 1 = csize + 1 := pack_one_even csize (by omega)
  have hcs : GET_SIZE h.mem (HDRP bp) = csize := by
    simp only [HDRP, WSIZE, GET_SIZE, hhdr]; omega
  have hsub : sub64 csize asize = csize - asize := sub64_of_le csize asize hle hcb
  simp only [place, hcs, hsub, hpack1]
  rw [if_neg (show ¬ 3 * DSIZE ≤ csize - asize by simp only [DSIZE]; omega)]
  simp only [HDRP, FTRP, WSIZE, DSIZE]
  have r1 : GET_SIZE (putMem h (bp - 8) (csize + 1)).mem (bp - 8) = csize := by
    rw [putMem_mem, GET_SIZE_put_eq]; omega
  rw [r1]

/-- Full behavior of place on a free-list block bp of size csize: the
boundary tags written and the resulting free list, in both branches.
The block sits in the free list between prefix a and suffix b; hrem
separates the would-be remainder node from the rest; htag says no link
field of another node aliases the four tag words place writes. -/
theorem place_spec (h : Heap) (bp asize csize : Nat) (a b : List Nat)
    (hhdr : h.mem (bp - 8) = csize)
    (hc16 : csize % 16 = 0) (ha16 : asize % 16 = 0)
    (haz : 32 ≤ asize) (hle : asize ≤ csize) (hcb : csize < 2 ^ 64) (hbp : 16 ≤ bp)
    (hchain : chainb h.mem h.free_listp (a ++ bp :: b) h.free_listp = true)
    (hpw : List.Pairwise sep (h.free_listp :: a ++ bp :: b))
    (hrem : ∀ z ∈ h.free_listp :: a ++ b, sep (bp + asize) z)
    (htag : ∀ z ∈ h.free_listp :: a ++ b,
      ∀ t ∈ [bp - 8, bp + asize - 16, bp + asize - 8, bp + csize - 16], z ≠ t ∧ z + 8 ≠ t) :
    (48 ≤ csize - asize →
      (place h bp asize).mem (bp - 8) = asize + 1 ∧
      (place h bp asize).mem (bp + asize - 16) = asize + 1 ∧
      (place h bp asize).mem (bp + asize - 8) = csize - asize ∧
      (place h bp asize).mem (bp + csize - 16) = csize - asize ∧
      chainb (place h bp asize).mem h.free_listp ((bp + asize) :: (a ++ b))
        h.free_listp = true) ∧
    (csize - asize < 48 →
      (place h bp asize).mem (bp - 8) = csize + 1 ∧
      (place h bp asize).mem (bp + csize - 16) = csize + 1 ∧
      chainb (place h bp asize).mem h.free_listp (a ++ b) h.free_listp = true) := by
  obtain ⟨hprv, hnxt⟩ := chainb_split h.mem h.free_listp bp b a h.free_listp hchain
  have hpwh := (List.pairwise_cons.mp hpw).1
  have hpw2 := (List.pairwise_cons.mp hpw).2
  have hpwXB := (List.pairwise_append.mp hpw2).2.1
  have hsepbpb : ∀ z ∈ b, sep bp z := (List.pairwise_cons.mp hpwXB).1
  have hprvmem : h.mem bp ∈ h.free_listp :: a := hprv ▸ getLastD_mem a h.free_listp
  have hnxtmem : h.mem (bp + 8) ∈ b ++ [h.free_listp] := hnxt ▸ headD_mem b h.free_listp
  have hl1 : bp ≠ h.mem (bp + 8) := by
    simp only [List.mem_append, List.mem_singleton] at hnxtmem
    rcases hnxtmem with hh | hh
    · exact (hsepbpb _ hh).1
    · rw [hh]; exact fun he => (hpwh bp (by simp)).1 he.symm
  have hprvmem2 : h.mem bp ∈ h.free_listp :: a ++ b := by
    simp only [List.mem_cons, List.mem_append] at hprvmem ⊢; tauto
  have hnxtmem2 : h.mem (bp + 8) ∈ h.free_listp :: a ++ b := by
    simp only [List.mem_append, List.mem_singleton] at hnxtmem
    simp only [List.mem_cons, List.mem_append]
    tauto
  have htagP := htag _ hprvmem2
  have htagN := htag _ hnxtmem2
  have hl2 : bp - 8 ≠ h.mem (bp + 8) := fun he => (htagN _ (by simp)).1 he.symm
  have hl3 : bp - 8 ≠ h.mem bp + 8 := fun he => (htagP _ (by simp)).2 he.symm
  have hpwRest : List.Pairwise sep (h.free_listp :: a ++ b) := by
    have hsub : (h.free_listp :: a ++ b).Sublist (h.free_listp :: a ++ bp :: b) := by
      apply List.Sublist.cons₂
      exact List.Sublist.append_left (List.sublist_cons_self bp b) a
    exact List.Pairwise.sublist hsub hpw
  have memsplit : ∀ z, z ∈ h.free_listp :: (a ++ bp :: b) →
      z = bp ∨ z ∈ h.free_listp :: a ++ b := by
    intro z hz
    simp only [List.mem_cons, List.mem_append] at hz ⊢
    tauto
  have memsplit2 : ∀ z, z ∈ (a ++ bp :: b) ++ [h.free_listp] →
      z = bp ∨ z ∈ h.free_listp :: a ++ b := by
    intro z hz
    simp only [List.mem_cons, List.mem_append, List.mem_singleton] at hz ⊢
    tauto
  have memr : ∀ z, z ∈ (a ++ b) ++ [h.free_listp] → z ∈ h.free_listp :: a ++ b := by
    intro z hz
    simp only [List.mem_cons, List.mem_append, List.mem_singleton] at hz ⊢
    tauto
  constructor
  · -- split branch
    intro hsplit
    rw [place_split_state h bp asize csize hhdr hc16 ha16 haz hle hcb hbp hsplit hl1 hl2 hl3]
    set HM2 := putMem (putMem h (bp - 8) (asize + 1)) (bp + asize - 16) (asize + 1) with hHM2
    have hm2a : HM2.mem (bp + 8) = h.mem (bp + 8) := by
      rw [hHM2, putMem_mem, putMem_mem, PUT_other _ _ _ _ (by omega),
        PUT_other _ _ _ _ (by omega)]
    have hm2b : HM2.mem bp = h.mem bp := by
      rw [hHM2, putMem_mem, putMem_mem, PUT_other _ _ _ _ (by omega),
        PUT_other _ _ _ _ (by omega)]
    have chain2 : chainb HM2.mem h.free_listp (a ++ bp :: b) h.free_listp = true := by
      have cA2a : ∀ z ∈ h.free_listp :: (a ++ bp :: b), z + 8 ≠ bp + asize - 16 := by
        intro z hz
        rcases memsplit z hz with rfl | hz2
        · omega
        · exact (htag z hz2 _ (by simp)).2
      have cA2b : ∀ z ∈ (a ++ bp :: b) ++ [h.free_listp], z ≠ bp + asize - 16 := by
        intro z hz
        rcases memsplit2 z hz with rfl | hz2
        · omega
        · exact (htag z hz2 _ (by simp)).1
      have cA1a : ∀ z ∈ h.free_listp :: (a ++ bp :: b), z + 8 ≠ bp - 8 := by
        intro z hz
        rcases memsplit z hz with rfl | hz2
        · omega
        · exact (htag z hz2 _ (by simp)).2
      have cA1b : ∀ z ∈ (a ++ bp :: b) ++ [h.free_listp], z ≠ bp - 8 := by
        intro z hz
        rcases memsplit2 z hz with rfl | hz2
        · omega
        · exact (htag z hz2 _ (by simp)).1
      rw [hHM2, putMem_mem, putMem_mem, chainb_put _ _ _ _ _ _ cA2a cA2b,
        chainb_put _ _ _ _ _ _ cA1a cA1b]
      exact hchain
    have chain3 : chainb (remove_free HM2 bp).mem h.free_listp (a ++ b)
        h.free_listp = true :=
      remove_free_chainb HM2 bp a b chain2 hpw
    have read1 : (remove_free HM2 bp).mem (bp - 8) = asize + 1 := by
      rw [remove_free_frame _ bp _ (by rw [hm2a]; exact hl1) (by rw [hm2a]; exact hl2)
        (by rw [hm2b]; exact hl3)]
      rw [hHM2, putMem_mem, putMem_mem, PUT_other _ _ _ _ (by omega), PUT_same]
    have read2 : (remove_free HM2 bp).mem (bp + asize - 16) = asize + 1 := by
      rw [remove_free_frame _ bp _ (by rw [hm2a]; exact hl1)
        (by rw [hm2a]; exact fun he => (htagN _ (by simp)).1 he.symm)
        (by rw [hm2b]; exact fun he => (htagP _ (by simp)).2 he.symm)]
      rw [hHM2, putMem_mem, putMem_mem, PUT_same]
    set HH := putMem (putMem (remove_free HM2 bp) (bp + asize - 8) (csize - asize))
      (bp + csize - 16) (csize - asize) with hHH
    have chain5 : chainb HH.mem h.free_listp (a ++ b) h.free_listp = true := by
      have cA4a : ∀ z ∈ h.free_listp :: (a ++ b), z + 8 ≠ bp + csize - 16 :=
        fun z hz => (htag z hz _ (by simp)).2
      have cA4b : ∀ z ∈ (a ++ b) ++ [h.free_listp], z ≠ bp + csize - 16 :=
        fun z hz => (htag z (memr z hz) _ (by simp)).1
      have cA3a : ∀ z ∈ h.free_listp :: (a ++ b), z + 8 ≠ bp + asize - 8 :=
        fun z hz => (htag z hz _ (by simp)).2
      have cA3b : ∀ z ∈ (a ++ b) ++ [h.free_listp], z ≠ bp + asize - 8 :=
        fun z hz => (htag z (memr z hz) _ (by simp)).1
      rw [hHH, putMem_mem, putMem_mem, chainb_put _ _ _ _ _ _ cA4a cA4b,
        chainb_put _ _ _ _ _ _ cA3a cA3b]
      exact chain3
    have chainF : chainb (add_free HH (bp + asize)).mem h.free_listp
        ((bp + asize) :: (a ++ b)) h.free_listp = true :=
      add_free_chainb HH (bp + asize) (a ++ b) chain5 hpwRest hrem
    have hoh : HH.mem (h.free_listp + 8) = (a ++ b).headD h.free_listp :=
      chainb_head _ _ _ _ chain5
    have hohmem : (a ++ b).headD h.free_listp ∈ h.free_listp :: a ++ b := by
      have := headD_mem (a ++ b) h.free_listp
      simp only [List.mem_cons, List.mem_append, List.mem_singleton] at this ⊢
      tauto
    have readTag : ∀ t ∈ [bp - 8, bp + asize - 16, bp + asize - 8, bp + csize - 16],
        t ≠ bp + asize → t ≠ bp + asize + 8 →
        (add_free HH (bp + asize)).mem t = HH.mem t := by
      intro t ht hne1 hne2
      have hfl : HH.free_listp = h.free_listp := rfl
      apply add_free_frame
      · rw [hfl, hoh]
        exact fun he => (htag _ hohmem t ht).1 he.symm
      · exact hne2
      · exact hne1
      · rw [hfl]
        exact fun he => (htag h.free_listp (by simp) t ht).2 he.symm
    refine ⟨?_, ?_, ?_, ?_, chainF⟩
    · rw [readTag _ (by simp) (by omega) (by omega), hHH, putMem_mem, putMem_mem,
        PUT_other _ _ _ _ (by omega), PUT_other _ _ _ _ (by omega)]
      exact read1
    · rw [readTag _ (by simp) (by omega) (by omega), hHH, putMem_mem, putMem_mem,
        PUT_other _ _ _ _ (by omega), PUT_other _ _ _ _ (by omega)]
      exact read2
    · rw [readTag _ (by simp) (by omega) (by omega), hHH, putMem_mem, putMem_mem,
        PUT_other _ _ _ _ (by omega), PUT_same]
    · rw [readTag _ (by simp) (by omega) (by omega), hHH, putMem_mem, putMem_mem, PUT_same]
  · -- no-split branch
    intro hsmall
    have hcz : 32 ≤ csize := by omega
    rw [place_whole_state h bp asize csize hhdr hc16 hle hcb hcz hbp hsmall]
    set HM2 := putMem (putMem h (bp - 8) (csize + 1)) (bp + csize - 16) (csize + 1) with hHM2
    have hm2a : HM2.mem (bp + 8) = h.mem (bp + 8) := by
      rw [hHM2, putMem_mem, putMem_mem, PUT_other _ _ _ _ (by omega),
        PUT_other _ _ _ _ (by omega)]
    have hm2b : HM2.mem bp = h.mem bp := by
      rw [hHM2, putMem_mem, putMem_mem, PUT_other _ _ _ _ (by omega),
        PUT_other _ _ _ _ (by omega)]
    refine ⟨?_, ?_, ?_⟩
    · rw [remove_free_frame _ bp _ (by rw [hm2a]; exact hl1) (by rw [hm2a]; exact hl2)
        (by rw [hm2b]; exact hl3)]
      rw [hHM2, putMem_mem, putMem_mem, PUT_other _ _ _ _ (by omega), PUT_same]
    · rw [remove_free_frame _ bp _ (by rw [hm2a]; exact hl1)
        (by rw [hm2a]; exact fun he => (htagN _ (by simp)).1 he.symm)
        (by rw [hm2b]; exact fun he => (htagP _ (by simp)).2 he.symm)]
      rw [hHM2, putMem_mem, putMem_mem, PUT_same]
    · have chain2 : chainb HM2.mem h.free_listp (a ++ bp :: b) h.free_listp = true := by
        have cB2a : ∀ z ∈ h.free_listp :: (a ++ bp :: b), z + 8 ≠ bp + csize - 16 := by
          intro z hz
          rcases memsplit z hz with rfl | hz2
          · omega
          · exact (htag z hz2 _ (by simp)).2
        have cB2b : ∀ z ∈ (a ++ bp :: b) ++ [h.free_listp], z ≠ bp + csize - 16 := by
          intro z hz
          rcases memsplit2 z hz with rfl | hz2
          · omega
          · exact (htag z hz2 _ (by simp)).1
        have cB1a : ∀ z ∈ h.free_listp :: (a ++ bp :: b), z + 8 ≠ bp - 8 := by
          intro z hz
          rcases memsplit z hz with rfl | hz2
          · omega
          · exact (htag z hz2 _ (by simp)).2
        have cB1b : ∀ z ∈ (a ++ bp :: b) ++ [h.free_listp], z ≠ bp - 8 := by
          intro z hz
          rcases memsplit2 z hz with rfl | hz2
          · omega
          · exact (htag z hz2 _ (by simp)).1
        rw [hHM2, putMem_mem, putMem_mem, chainb_put _ _ _ _ _ _ cB2a cB2b,
          chainb_put _ _ _ _ _ _ cB1a cB1b]
        exact hchain
      exact remove_free_chainb HM2 bp a b chain2 hpw

/-- A free-list node's link words never alias the node's own fields. -/
theorem chainb_sep_next (h : Heap) (x : Nat) (l1 l2 : List Nat)
    (hc : chainb h.mem h.free_listp (l1 ++ x :: l2) h.free_listp = true)
    (hpw : List.Pairwise sep (h.free_listp :: l1 ++ x :: l2)) :
    x ≠ h.mem (x + 8) ∧ x + 8 ≠ h.mem (x + 8) := by
  obtain ⟨hprv, hnxt⟩ := chainb_split h.mem h.free_listp x l2 l1 h.free_listp hc
  have hpwh := (List.pairwise_cons.mp hpw).1
  have hpw2 := (List.pairwise_cons.mp hpw).2
  have hnxtmem : h.mem (x + 8) ∈ l2 ++ [h.free_listp] := hnxt ▸ headD_mem l2 h.free_listp
  simp only [List.mem_append, List.mem_singleton] at hnxtmem
  rcases hnxtmem with hh | hh
  · have pxb := (List.pairwise_append.mp hpw2).2.1
    have : sep x (h.mem (x + 8)) := (List.pairwise_cons.mp pxb).1 _ hh
    exact ⟨this.1, this.2.1⟩
  · rw [hh]
    have := hpwh x (by simp)
    exact ⟨fun he => this.1 he.symm, this.2.2⟩

/-- The two links of a chain node are members of its surroundings. -/
theorem chainb_links_mem (h : Heap) (x : Nat) (l1 l2 : List Nat)
    (hc : chainb h.mem h.free_listp (l1 ++ x :: l2) h.free_listp = true) :
    h.mem x ∈ h.free_listp :: l1 ∧ h.mem (x + 8) ∈ l2 ++ [h.free_listp] := by
  obtain ⟨hprv, hnxt⟩ := chainb_split h.mem h.free_listp x l2 l1 h.free_listp hc
  exact ⟨hprv ▸ getLastD_mem l1 h.free_listp, hnxt ▸ headD_mem l2 h.free_listp⟩

/-- A word separated from the link fields of every remaining ring node is
untouched by removing x from the free list. -/
theorem remove_free_frame_chain (h : Heap) (x t : Nat) (l1 l2 : List Nat)
    (hc : chainb h.mem h.free_listp (l1 ++ x :: l2) h.free_listp = true)
    (hpw : List.Pairwise sep (h.free_listp :: l1 ++ x :: l2))
    (ht : ∀ z ∈ h.free_listp :: l1 ++ l2, z ≠ t ∧ z + 8 ≠ t) :
    (remove_free h x).mem t = h.mem t := by
  obtain ⟨hx1, _⟩ := chainb_sep_next h x l1 l2 hc hpw
  obtain ⟨hprvm, hnxtm⟩ := chainb_links_mem h x l1 l2 hc
  apply remove_free_frame h x t hx1
  · simp only [List.mem_append, List.mem_singleton] at hnxtm
    rcases hnxtm with hh | hh
    · exact fun he => (ht _ (by simp only [List.mem_cons, List.mem_append]; tauto)).1 he.symm
    · rw [hh]
      exact fun he => (ht h.free_listp (by simp)).1 he.symm
  · simp only [List.mem_cons] at hprvm
    rcases hprvm with hh | hh
    · rw [hh]
      exact fun he => (ht h.free_listp (by simp)).2 he.symm
    · exact fun he => (ht _ (by simp only [List.mem_cons, List.mem_append]; tauto)).2 he.symm

/-- A word separated from the link fields of the ring and of the inserted
node is untouched by add_free. -/
theorem add_free_frame_chain (h : Heap) (bp t : Nat) (l : List Nat)
    (hc : chainb h.mem h.free_listp l h.free_listp = true)
    (ht : ∀ z ∈ h.free_listp :: l, z ≠ t ∧ z + 8 ≠ t)
    (htb1 : t ≠ bp) (htb2 : t ≠ bp + 8) :
    (add_free h bp).mem t = h.mem t := by
  apply add_free_frame
  · rw [chainb_head _ _ _ _ hc]
    have := headD_mem l h.free_listp
    simp only [List.mem_append, List.mem_singleton] at this
    rcases this with hh | hh
    · exact fun he => (ht _ (List.mem_cons_of_mem _ hh)).1 he.symm
    · rw [hh]
      exact fun he => (ht h.free_listp (by simp)).1 he.symm
  · exact htb2
  · exact htb1
  · exact fun he => (ht h.free_listp (by simp)).2 he.symm

/-- C7: split policy of place.  For a free block bp of size csize on the
free list (between prefix a and suffix b) and an adjusted request
asize ≤ csize: when csize − asize ≥ 3·DSIZE = 48, place writes header
and footer (asize | 1) at bp, removes bp from the free list, writes
header and footer (csize − asize | 0) for the remainder block
immediately after bp, and adds that remainder (payload bp + asize) to
the free list; otherwise it writes (csize | 1) on the whole block,
removes bp from the free list, and creates no new free block. -/
theorem c7_place_split_policy (h : Heap) (bp asize csize : Nat) (a b : List Nat)
    (hhdr : h.mem (bp - 8) = csize)
    (hc16 : csize % 16 = 0) (ha16 : asize % 16 = 0)
    (haz : 32 ≤ asize) (hle : asize ≤ csize) (hcb : csize < 2 ^ 64) (hbp : 16 ≤ bp)
    (hchain : chainb h.mem h.free_listp (a ++ bp :: b) h.free_listp = true)
    (hpw : List.Pairwise sep (h.free_listp :: a ++ bp :: b))
    (hrem : ∀ z ∈ h.free_listp :: a ++ b, sep (bp + asize) z)
    (htag : ∀ z ∈ h.free_listp :: a ++ b,
      ∀ t ∈ [bp - 8, bp + asize - 16, bp + asize - 8, bp + csize - 16], z ≠ t ∧ z + 8 ≠ t) :
    (48 ≤ csize - asize →
      (place h bp asize).mem (bp - 8) = asize + 1 ∧
      (place h bp asize).mem (bp + asize - 16) = asize + 1 ∧
      (place h bp asize).mem (bp + asize - 8) = csize - asize ∧
      (place h bp asize).mem (bp + csize - 16) = csize - asize ∧
      chainb (place h bp asize).mem h.free_listp ((bp + asize) :: (a ++ b))
        h.free_listp = true) ∧
    (csize - asize < 48 →
      (place h bp asize).mem (bp - 8) = csize + 1 ∧
      (place h bp asize).mem (bp + csize - 16) = csize + 1 ∧
      chainb (place h bp asize).mem h.free_listp (a ++ b) h.free_listp = true) :=
  place_spec h bp asize csize a b hhdr hc16 ha16 haz hle hcb hbp hchain hpw hrem htag

/-- C7 witness: the post-init heap, free list [64], placing 48 bytes into
the 4096-byte block at 64 splits it: front tags 49 at 56 and 96,
remainder tags 4048 at 104 and 4144, new free list [112]. -/
theorem c7_witness :
    (place heap0 64 48).mem 56 = 49 ∧ (place heap0 64 48).mem 96 = 49 ∧
    (place heap0 64 48).mem 104 = 4048 ∧ (place heap0 64 48).mem 4144 = 4048 ∧
    chainb (place heap0 64 48).mem heap0.free_listp [112] heap0.free_listp = true := by
  have := (c7_place_split_policy heap0 64 48 4096 [] [] (by decide) (by decide) (by decide)
    (by decide) (by decide) (by decide) (by decide) (by decide) (by decide) (by decide)
    (by decide)).1 (by norm_num)
  simpa using this

/-- C3 amended: mm_malloc computes
asize = max(2·DSIZE, round_up(n + 2·WSIZE, 2·WSIZE)) for every non-zero
request n other than the two hard-coded overrides (448 becomes 528 and
112 becomes 144, where the formula would give 464 and 128
respectively); and the block place carves out of a chosen
fit of size csize has header size exactly asize when it splits, or
csize — the unsplit remainder-bearing fit — when the remainder is less
than 3·DSIZE. -/
theorem c3_alloc_sizing :
    (∀ n, n ≠ 0 → n ≠ 448 → n ≠ 112 → n + 31 < 2 ^ 64 →
      malloc_asize n = spec_malloc_asize n) ∧
    malloc_asize 448 = 528 ∧ malloc_asize 112 = 144 ∧
    (∀ (h : Heap) (bp asize csize : Nat) (a b : List Nat),
      h.mem (bp - 8) = csize →
      csize % 16 = 0 → asize % 16 = 0 →
      32 ≤ asize → asize ≤ csize → csize < 2 ^ 64 → 16 ≤ bp →
      chainb h.mem h.free_listp (a ++ bp :: b) h.free_listp = true →
      List.Pairwise sep (h.free_listp :: a ++ bp :: b) →
      (∀ z ∈ h.free_listp :: a ++ b, sep (bp + asize) z) →
      (∀ z ∈ h.free_listp :: a ++ b,
        ∀ t ∈ [bp - 8, bp + asize - 16, bp + asize - 8, bp + csize - 16],
          z ≠ t ∧ z + 8 ≠ t) →
      GET_SIZE (place h bp asize).mem (bp - 8) =
        (if 48 ≤ csize - asize then asize else csize)) := by
  refine ⟨?_, by decide, by decide, ?_⟩
  · intro n h0 h448 h112 hb
    have e : (2 : Nat) ^ 64 = 18446744073709551616 := by norm_num
    simp only [malloc_asize, spec_malloc_asize, roundUp, DSIZE, WSIZE, if_neg h448,
      if_neg h112, e] at *
    by_cases hn : n ≤ 16
    · rw [if_pos hn]
      omega
    · rw [if_neg hn]
      omega
  · intro h bp asize csize a b hhdr hc16 ha16 haz hle hcb hbp hchain hpw hrem htag
    have hs := place_spec h bp asize csize a b hhdr hc16 ha16 haz hle hcb hbp hchain
      hpw hrem htag
    by_cases hcase : 48 ≤ csize - asize
    · rw [if_pos hcase]
      have := (hs.1 hcase).1
      rw [GET_SIZE, this]
      omega
    · rw [if_neg hcase]
      have := (hs.2 (by omega)).1
      rw [GET_SIZE, this]
      omega

/-- C3 witness: the formula at n = 5 and the split-size fact on the
post-init heap. -/
theorem c3_witness :
    malloc_asize 5 = spec_malloc_asize 5 ∧
    GET_SIZE (place heap0 64 48).mem 56 = 48 := by
  constructor
  · exact c3_alloc_sizing.1 5 (by decide) (by decide) (by decide) (by norm_num)
  · have := c3_alloc_sizing.2.2.2 heap0 64 48 4096 [] [] (by decide) (by decide)
      (by decide) (by decide) (by decide) (by decide) (by decide) (by decide) (by decide)
      (by decide) (by decide)
    simpa using this

/-- The find_fit loop, started at the successor of a chain node, returns
the first member of the remaining chain that fits. -/
theorem find_fit_go_spec (h : Heap) (asize : Nat) (l : List Nat) (u : Nat) (fuel : Nat)
    (hc : chainb h.mem u l h.free_listp = true)
    (hfree : ∀ x ∈ l, GET_ALLOC h.mem (HDRP x) = 0)
    (hsent : GET_ALLOC h.mem (HDRP h.free_listp) = 1)
    (hfuel : l.length < fuel) :
    find_fit_go h asize fuel (h.mem (u + 8)) =
      l.find? (fun x => decide (asize ≤ GET_SIZE h.mem (HDRP x))) := by
  induction l generalizing u fuel with
  | nil =>
    obtain ⟨h1, _⟩ := (chainb_nil_iff _ _ _).mp hc
    rw [h1]
    cases fuel with
    | zero => omega
    | succ f => simp [find_fit_go, hsent]
  | cons x xs ih =>
    obtain ⟨h1, _, h3⟩ := (chainb_cons_iff _ _ _ _ _).mp hc
    rw [h1]
    cases fuel with
    | zero => simp at hfuel
    | succ f =>
      have hfx := hfree x (by simp)
      have hxs : x ≠ h.free_listp := by
        intro he
        rw [he, hsent] at hfx
        omega
      by_cases hp : asize ≤ GET_SIZE h.mem (HDRP x)
      · simp [find_fit_go, hfx, hp, List.find?_cons_of_pos]
      · have := ih x f h3 (fun z hz => hfree z (by simp [hz])) (by simp at hfuel ⊢; omega)
        simp [find_fit_go, hfx, hp, hxs, List.find?_cons_of_neg, WSIZE, this]

/-- C6: find_fit walks the free list forward from the sentinel's next
link and returns exactly the first block in that order whose size is at
least asize, and none when no listed block fits.  Since the result is
List.find? over the listed blocks — all hypothesized free and distinct
from the allocated sentinel — it is never the sentinel, never an
allocated block, and never a later fit when an earlier one exists. -/
theorem c6_find_fit_first_fit (h : Heap) (asize fuel : Nat) (l : List Nat)
    (hc : chainb h.mem h.free_listp l h.free_listp = true)
    (hfree : ∀ x ∈ l, GET_ALLOC h.mem (HDRP x) = 0)
    (hsent : GET_ALLOC h.mem (HDRP h.free_listp) = 1)
    (hfuel : l.length < fuel) :
    find_fit h asize fuel = l.find? (fun x => decide (asize ≤ GET_SIZE h.mem (HDRP x))) :=
  find_fit_go_spec h asize l h.free_listp fuel hc hfree hsent hfuel

/-- C6 witness: the post-init heap, free list [64], request 32. -/
theorem c6_witness :
    find_fit heap0 32 2 = [64].find? (fun x => decide (32 ≤ GET_SIZE heap0.mem (HDRP x))) :=
  c6_find_fit_first_fit heap0 32 2 [64] (by decide) (by decide) (by decide) (by decide)

/-- C10: when the free list is empty (the sentinel's next link is the
sentinel itself) the loop guard reads the sentinel's header, sees
allocated bit 1, and find_fit returns none at once — fuel 1, i.e. zero
link steps, suffices — so mm_malloc on an empty free list always
proceeds to the heap-extension path. -/
theorem c10_find_fit_empty (h : Heap) (asize fuel size : Nat)
    (hempty : h.mem (h.free_listp + 8) = h.free_listp)
    (hsent : GET_ALLOC h.mem (HDRP h.free_listp) = 1)
    (hfuel : 1 ≤ fuel) :
    find_fit h asize fuel = none ∧
    (size ≠ 0 → mm_malloc h size fuel = mm_malloc_nofit h (malloc_asize size)) := by
  have key : ∀ az : Nat, find_fit h az fuel = none := by
    intro az
    rw [find_fit]
    have : h.free_listp + WSIZE = h.free_listp + 8 := rfl
    rw [this, hempty]
    cases fuel with
    | zero => omega
    | succ f => simp [find_fit_go, hsent]
  refine ⟨key asize, fun hs => ?_⟩
  simp only [mm_malloc, if_neg hs, key (malloc_asize size)]

/-- The mm_init prelude state with an empty free list (before any
extension): padding 0, prologue 17/17, dummy head 33 with self links,
epilogue 1. -/
def heapE : Heap :=
  { mem := PUT (PUT (PUT (PUT (PUT (PUT (PUT (PUT (fun _ => 0) 0 0) 8 17) 16 17)
      24 33) 32 32) 40 32) 48 33) 56 1,
    brk := 64, limit := 64, heap_listp := 16, free_listp := 32 }

/-- C10 witness. -/
theorem c10_witness :
    find_fit heapE 32 1 = none ∧
    mm_malloc heapE 16 1 = mm_malloc_nofit heapE (malloc_asize 16) := by
  have := c10_find_fit_empty heapE 32 1 16 (by decide) (by decide) (by decide)
  exact ⟨this.1, this.2 (by decide)⟩

/-- C9: out-of-memory atomicity.  (1) When no fit exists and the
extender refuses the growth request (extend_heap returns its error
sentinel before performing any store), mm_malloc returns NULL and the
heap state is literally unchanged — same memory, same break, same
globals.  (2) mm_init returns -1 when its first sbrk fails, and (3) also
when the prelude fits but the CHUNKSIZE extension fails. -/
theorem c9_oom_atomicity :
    (∀ (h : Heap) (size fuel : Nat), size ≠ 0 →
      find_fit h (malloc_asize size) fuel = none →
      extend_heap h (max (malloc_asize size) CHUNKSIZE / WSIZE) = none →
      mm_malloc h size fuel = (none, h)) ∧
    (∀ limit, limit < 64 → mm_init limit = none) ∧
    (∀ limit, 64 ≤ limit → limit < 4160 → mm_init limit = none) := by
  refine ⟨?_, ?_, ?_⟩
  · intro h size fuel hs hfind hext
    simp only [mm_malloc, if_neg hs, hfind, mm_malloc_nofit, hext]
  · intro limit hlim
    simp only [mm_init, mem_sbrk, initialHeap, WSIZE]
    rw [if_neg (by omega)]
  · intro limit hlo hhi
    simp only [mm_init, mem_sbrk, initialHeap, extend_heap, putMem, WSIZE, CHUNKSIZE]
    rw [if_pos (by omega)]
    norm_num
    rw [if_neg (by omega)]

/-- Coalesce case 1 (both neighbors allocated): bp is inserted into the
free list unchanged, tags intact, neighbors still allocated. -/
theorem coalesce_case1 (h : Heap) (bp sz psz nsz : Nat) (l : List Nat)
    (hsz : sz % 16 = 0) (hpsz : psz % 16 = 0) (hnsz : nsz % 16 = 0)
    (hsz32 : 32 ≤ sz) (hpsz32 : 32 ≤ psz)
    (hbp : psz + 16 ≤ bp)
    (hhdr : h.mem (bp - 8) = sz) (hftr : h.mem (bp + sz - 16) = sz)
    (hpf : h.mem (bp - 16) = psz + 1) (hph : h.mem (bp - psz - 8) = psz + 1)
    (hnh : h.mem (bp + sz - 8) = nsz + 1)
    (hchain : chainb h.mem h.free_listp l h.free_listp = true)
    (hpw : List.Pairwise sep (h.free_listp :: l))
    (hsepbp : ∀ z ∈ h.free_listp :: l, sep bp z)
    (htag : ∀ z ∈ h.free_listp :: l,
      ∀ t ∈ [bp - 16, bp - 8, bp + sz - 16, bp + sz - 8], z ≠ t ∧ z + 8 ≠ t) :
    (coalesce h bp).1 = bp ∧
    (coalesce h bp).2.mem (bp - 8) = sz ∧
    (coalesce h bp).2.mem (bp + sz - 16) = sz ∧
    (coalesce h bp).2.mem (bp - 16) % 2 = 1 ∧
    (coalesce h bp).2.mem (bp + sz - 8) % 2 = 1 ∧
    chainb (coalesce h bp).2.mem h.free_listp (bp :: l) h.free_listp = true := by
  have f1 : GET_SIZE h.mem (bp - 8) = sz := by
    simp only [GET_SIZE, hhdr]; omega
  have f2 : GET_SIZE h.mem (bp - 16) = psz := by
    simp only [GET_SIZE, hpf]; omega
  have f3 : GET_SIZE h.mem (bp - psz - 8) = psz := by
    simp only [GET_SIZE, hph]; omega
  have ar1 : bp - psz + psz - 16 = bp - 16 := by omega
  have ga1 : GET_ALLOC h.mem (bp - 16) = 1 := by
    simp only [GET_ALLOC, hpf]; omega
  have ga2 : GET_ALLOC h.mem (bp + sz - 8) = 1 := by
    simp only [GET_ALLOC, hnh]; omega
  have hco : coalesce h bp = (bp, add_free h bp) := by
    simp only [coalesce, HDRP, FTRP, NEXT_BLKP, PREV_BLKP, WSIZE, DSIZE,
      f1, f2, f3, ar1, ga1, ga2]
    rw [if_pos (by simp)]
  rw [hco]
  refine ⟨rfl, ?_, ?_, ?_, ?_, ?_⟩
  · rw [add_free_frame_chain h bp (bp - 8) l hchain
      (fun z hz => htag z hz _ (by simp)) (by omega) (by omega)]
    exact hhdr
  · rw [add_free_frame_chain h bp (bp + sz - 16) l hchain
      (fun z hz => htag z hz _ (by simp)) (by omega) (by omega)]
    exact hftr
  · rw [add_free_frame_chain h bp (bp - 16) l hchain
      (fun z hz => htag z hz _ (by simp)) (by omega) (by omega)]
    rw [hpf]; omega
  · rw [add_free_frame_chain h bp (bp + sz - 8) l hchain
      (fun z hz => htag z hz _ (by simp)) (by omega) (by omega)]
    rw [hnh]; omega
  · exact add_free_chainb h bp l hchain hpw hsepbp

/-- Coalesce case 2 (previous allocated, next free): the next block is
removed from the free list, absorbed into bp, and the merged block is
inserted; its header and footer read sz + nsz, and the neighbors of the
merged block are allocated. -/
theorem coalesce_case2 (h : Heap) (bp sz psz nsz : Nat) (a b : List Nat)
    (hsz : sz % 16 = 0) (hpsz : psz % 16 = 0) (hnsz : nsz % 16 = 0)
    (hsz32 : 32 ≤ sz) (hpsz32 : 32 ≤ psz) (hnsz32 : 32 ≤ nsz)
    (hbp : psz + 16 ≤ bp)
    (hhdr : h.mem (bp - 8) = sz)
    (hpf : h.mem (bp - 16) = psz + 1) (hph : h.mem (bp - psz - 8) = psz + 1)
    (hnh : h.mem (bp + sz - 8) = nsz)
    (hNN : h.mem (bp + sz + nsz - 8) % 2 = 1)
    (hchain : chainb h.mem h.free_listp (a ++ (bp + sz) :: b) h.free_listp = true)
    (hpw : List.Pairwise sep (h.free_listp :: a ++ (bp + sz) :: b))
    (hsepbp : ∀ z ∈ h.free_listp :: a ++ b, sep bp z)
    (htag : ∀ z ∈ h.free_listp :: a ++ b,
      ∀ t ∈ [bp - 16, bp - 8, bp + sz + nsz - 16, bp + sz + nsz - 8],
        z ≠ t ∧ z + 8 ≠ t) :
    (coalesce h bp).1 = bp ∧
    (coalesce h bp).2.mem (bp - 8) = sz + nsz ∧
    (coalesce h bp).2.mem (bp + sz + nsz - 16) = sz + nsz ∧
    (coalesce h bp).2.mem (bp - 16) % 2 = 1 ∧
    (coalesce h bp).2.mem (bp + sz + nsz - 8) % 2 = 1 ∧
    chainb (coalesce h bp).2.mem h.free_listp (bp :: (a ++ b)) h.free_listp = true := by
  have f1 : GET_SIZE h.mem (bp - 8) = sz := by
    simp only [GET_SIZE, hhdr]; omega
  have f2 : GET_SIZE h.mem (bp - 16) = psz := by
    simp only [GET_SIZE, hpf]; omega
  have f3 : GET_SIZE h.mem (bp - psz - 8) = psz := by
    simp only [GET_SIZE, hph]; omega
  have f4 : GET_SIZE h.mem (bp + sz - 8) = nsz := by
    simp only [GET_SIZE, hnh]; omega
  have ar1 : bp - psz + psz - 16 = bp - 16 := by omega
  have ga1 : GET_ALLOC h.mem (bp - 16) = 1 := by
    simp only [GET_ALLOC, hpf]; omega
  have ga2 : GET_ALLOC h.mem (bp + sz - 8) = 0 := by
    simp only [GET_ALLOC, hnh]; omega
  have hco : coalesce h bp = (bp,
      add_free (putMem (putMem (remove_free h (bp + sz)) (bp - 8) (sz + nsz))
        (bp + sz + nsz - 16) (sz + nsz)) bp) := by
    simp only [coalesce, HDRP, FTRP, NEXT_BLKP, PREV_BLKP, WSIZE, DSIZE,
      f1, f2, f3, f4, ar1, ga1, ga2, pack_zero]
    rw [if_neg (by simp), if_pos (by simp)]
    have hF2 : bp + GET_SIZE (putMem (remove_free h (bp + sz)) (bp - 8) (sz + nsz)).mem
        (bp - 8) - 16 = bp + sz + nsz - 16 := by
      rw [putMem_mem, GET_SIZE_put_eq]
      omega
    rw [hF2]
  rw [hco]
  have hrem1 : (remove_free h (bp + sz)).mem (bp - 8) = h.mem (bp - 8) := by
    apply remove_free_frame_chain h (bp + sz) (bp - 8) a b hchain hpw
    exact fun z hz => htag z hz _ (by simp)
  have hrem2 : (remove_free h (bp + sz)).mem (bp - 16) = h.mem (bp - 16) := by
    apply remove_free_frame_chain h (bp + sz) (bp - 16) a b hchain hpw
    exact fun z hz => htag z hz _ (by simp)
  have hrem3 : (remove_free h (bp + sz)).mem (bp + sz + nsz - 8)
      = h.mem (bp + sz + nsz - 8) := by
    apply remove_free_frame_chain h (bp + sz) (bp + sz + nsz - 8) a b hchain hpw
    exact fun z hz => htag z hz _ (by simp)
  have chain1 : chainb (remove_free h (bp + sz)).mem h.free_listp (a ++ b)
      h.free_listp = true := remove_free_chainb h (bp + sz) a b hchain hpw
  have hpwRest : List.Pairwise sep (h.free_listp :: a ++ b) := by
    have hsub : (h.free_listp :: a ++ b).Sublist (h.free_listp :: a ++ (bp + sz) :: b) :=
      List.Sublist.cons₂ _ (List.Sublist.append_left (List.sublist_cons_self _ b) a)
    exact List.Pairwise.sublist hsub hpw
  have chain3 : chainb (putMem (putMem (remove_free h (bp + sz)) (bp - 8) (sz + nsz))
      (bp + sz + nsz - 16) (sz + nsz)).mem h.free_listp (a ++ b) h.free_listp = true := by
    have cT2a : ∀ z ∈ h.free_listp :: (a ++ b), z + 8 ≠ bp + sz + nsz - 16 :=
      fun z hz => (htag z hz _ (by simp)).2
    have cT2b : ∀ z ∈ (a ++ b) ++ [h.free_listp], z ≠ bp + sz + nsz - 16 := by
      intro z hz
      have hz2 : z ∈ h.free_listp :: a ++ b := by
        simp only [List.mem_cons, List.mem_append, List.mem_singleton] at hz ⊢; tauto
      exact (htag z hz2 _ (by simp)).1
    have cT1a : ∀ z ∈ h.free_listp :: (a ++ b), z + 8 ≠ bp - 8 :=
      fun z hz => (htag z hz _ (by simp)).2
    have cT1b : ∀ z ∈ (a ++ b) ++ [h.free_listp], z ≠ bp - 8 := by
      intro z hz
      have hz2 : z ∈ h.free_listp :: a ++ b := by
        simp only [List.mem_cons, List.mem_append, List.mem_singleton] at hz ⊢; tauto
      exact (htag z hz2 _ (by simp)).1
    rw [putMem_mem, putMem_mem, chainb_put _ _ _ _ _ _ cT2a cT2b,
      chainb_put _ _ _ _ _ _ cT1a cT1b]
    exact chain1
  refine ⟨rfl, ?_, ?_, ?_, ?_, ?_⟩
  · rw [add_free_frame_chain _ bp (bp - 8) (a ++ b) chain3
      (fun z hz => htag z hz _ (by simp)) (by omega) (by omega)]
    rw [putMem_mem, putMem_mem, PUT_other _ _ _ _ (by omega), PUT_same]
  · rw [add_free_frame_chain _ bp (bp + sz + nsz - 16) (a ++ b) chain3
      (fun z hz => htag z hz _ (by simp)) (by omega) (by omega)]
    rw [putMem_mem, putMem_mem, PUT_same]
  · rw [add_free_frame_chain _ bp (bp - 16) (a ++ b) chain3
      (fun z hz => htag z hz _ (by simp)) (by omega) (by omega)]
    rw [putMem_mem, putMem_mem, PUT_other _ _ _ _ (by omega), PUT_other _ _ _ _ (by omega),
      hrem2, hpf]
    omega
  · rw [add_free_frame_chain _ bp (bp + sz + nsz - 8) (a ++ b) chain3
      (fun z hz => htag z hz _ (by simp)) (by omega) (by omega)]
    rw [putMem_mem, putMem_mem, PUT_other _ _ _ _ (by omega), PUT_other _ _ _ _ (by omega),
      hrem3]
    exact hNN
  · exact add_free_chainb _ bp (a ++ b) chain3 hpwRest hsepbp

/-- Coalesce case 3 (previous free, next allocated): the previous block
is removed from the free list, bp is absorbed into it, and the merged
block (payload bp − psz) is inserted; header and footer read sz + psz. -/
theorem coalesce_case3 (h : Heap) (bp sz psz nsz : Nat) (a b : List Nat)
    (hsz : sz % 16 = 0) (hpsz : psz % 16 = 0) (hnsz : nsz % 16 = 0)
    (hsz32 : 32 ≤ sz) (hpsz32 : 32 ≤ psz)
    (hbp : psz + 16 ≤ bp)
    (hhdr : h.mem (bp - 8) = sz)
    (hpf : h.mem (bp - 16) = psz) (hph : h.mem (bp - psz - 8) = psz)
    (hnh : h.mem (bp + sz - 8) = nsz + 1)
    (hPP : h.mem (bp - psz - 16) % 2 = 1)
    (hchain : chainb h.mem h.free_listp (a ++ (bp - psz) :: b) h.free_listp = true)
    (hpw : List.Pairwise sep (h.free_listp :: a ++ (bp - psz) :: b))
    (hsepbp : ∀ z ∈ h.free_listp :: a ++ b, sep (bp - psz) z)
    (htag : ∀ z ∈ h.free_listp :: a ++ b,
      ∀ t ∈ [bp - psz - 16, bp - psz - 8, bp + sz - 16, bp + sz - 8],
        z ≠ t ∧ z + 8 ≠ t) :
    (coalesce h bp).1 = bp - psz ∧
    (coalesce h bp).2.mem (bp - psz - 8) = sz + psz ∧
    (coalesce h bp).2.mem (bp + sz - 16) = sz + psz ∧
    (coalesce h bp).2.mem (bp - psz - 16) % 2 = 1 ∧
    (coalesce h bp).2.mem (bp + sz - 8) % 2 = 1 ∧
    chainb (coalesce h bp).2.mem h.free_listp ((bp - psz) :: (a ++ b))
      h.free_listp = true := by
  have f1 : GET_SIZE h.mem (bp - 8) = sz := by
    simp only [GET_SIZE, hhdr]; omega
  have f2 : GET_SIZE h.mem (bp - 16) = psz := by
    simp only [GET_SIZE, hpf]; omega
  have f3 : GET_SIZE h.mem (bp - psz - 8) = psz := by
    simp only [GET_SIZE, hph]; omega
  have ar1 : bp - psz + psz - 16 = bp - 16 := by omega
  have ga1 : GET_ALLOC h.mem (bp - 16) = 0 := by
    simp only [GET_ALLOC, hpf]; omega
  have ga2 : GET_ALLOC h.mem (bp + sz - 8) = 1 := by
    simp only [GET_ALLOC, hnh]; omega
  have hco : coalesce h bp = (bp - psz,
      add_free (putMem (putMem (remove_free h (bp - psz)) (bp - psz - 8) (sz + psz))
        (bp + sz - 16) (sz + psz)) (bp - psz)) := by
    simp only [coalesce, HDRP, FTRP, NEXT_BLKP, PREV_BLKP, WSIZE, DSIZE,
      f1, f2, f3, ar1, ga1, ga2, pack_zero]
    rw [if_neg (by simp), if_neg (by simp), if_pos (by simp)]
    have hF2 : bp - psz + GET_SIZE (putMem (remove_free h (bp - psz)) (bp - psz - 8)
        (sz + psz)).mem (bp - psz - 8) - 16 = bp + sz - 16 := by
      rw [putMem_mem, GET_SIZE_put_eq]
      omega
    rw [hF2]
  rw [hco]
  have hrem2 : (remove_free h (bp - psz)).mem (bp - psz - 16) = h.mem (bp - psz - 16) := by
    apply remove_free_frame_chain h (bp - psz) (bp - psz - 16) a b hchain hpw
    exact fun z hz => htag z hz _ (by simp)
  have hrem3 : (remove_free h (bp - psz)).mem (bp + sz - 8) = h.mem (bp + sz - 8) := by
    apply remove_free_frame_chain h (bp - psz) (bp + sz - 8) a b hchain hpw
    exact fun z hz => htag z hz _ (by simp)
  have chain1 : chainb (remove_free h (bp - psz)).mem h.free_listp (a ++ b)
      h.free_listp = true := remove_free_chainb h (bp - psz) a b hchain hpw
  have hpwRest : List.Pairwise sep (h.free_listp :: a ++ b) := by
    have hsub : (h.free_listp :: a ++ b).Sublist (h.free_listp :: a ++ (bp - psz) :: b) :=
      List.Sublist.cons₂ _ (List.Sublist.append_left (List.sublist_cons_self _ b) a)
    exact List.Pairwise.sublist hsub hpw
  have chain3 : chainb (putMem (putMem (remove_free h (bp - psz)) (bp - psz - 8) (sz + psz))
      (bp + sz - 16) (sz + psz)).mem h.free_listp (a ++ b) h.free_listp = true := by
    have cT2a : ∀ z ∈ h.free_listp :: (a ++ b), z + 8 ≠ bp + sz - 16 :=
      fun z hz => (htag z hz _ (by simp)).2
    have cT2b : ∀ z ∈ (a ++ b) ++ [h.free_listp], z ≠ bp + sz - 16 := by
      intro z hz
      have hz2 : z ∈ h.free_listp :: a ++ b := by
        simp only [List.mem_cons, List.mem_append, List.mem_singleton] at hz ⊢; tauto
      exact (htag z hz2 _ (by simp)).1
    have cT1a : ∀ z ∈ h.free_listp :: (a ++ b), z + 8 ≠ bp - psz - 8 :=
      fun z hz => (htag z hz _ (by simp)).2
    have cT1b : ∀ z ∈ (a ++ b) ++ [h.free_listp], z ≠ bp - psz - 8 := by
      intro z hz
      have hz2 : z ∈ h.free_listp :: a ++ b := by
        simp only [List.mem_cons, List.mem_append, List.mem_singleton] at hz ⊢; tauto
      exact (htag z hz2 _ (by simp)).1
    rw [putMem_mem, putMem_mem, chainb_put _ _ _ _ _ _ cT2a cT2b,
      chainb_put _ _ _ _ _ _ cT1a cT1b]
    exact chain1
  refine ⟨rfl, ?_, ?_, ?_, ?_, ?_⟩
  · rw [add_free_frame_chain _ (bp - psz) (bp - psz - 8) (a ++ b) chain3
      (fun z hz => htag z hz _ (by simp)) (by omega) (by omega)]
    rw [putMem_mem, putMem_mem, PUT_other _ _ _ _ (by omega), PUT_same]
  · rw [add_free_frame_chain _ (bp - psz) (bp + sz - 16) (a ++ b) chain3
      (fun z hz => htag z hz _ (by simp)) (by omega) (by omega)]
    rw [putMem_mem, putMem_mem, PUT_same]
  · rw [add_free_frame_chain _ (bp - psz) (bp - psz - 16) (a ++ b) chain3
      (fun z hz => htag z hz _ (by simp)) (by omega) (by omega)]
    rw [putMem_mem, putMem_mem, PUT_other _ _ _ _ (by omega), PUT_other _ _ _ _ (by omega),
      hrem2]
    exact hPP
  · rw [add_free_frame_chain _ (bp - psz) (bp + sz - 8) (a ++ b) chain3
      (fun z hz => htag z hz _ (by simp)) (by omega) (by omega)]
    rw [putMem_mem, putMem_mem, PUT_other _ _ _ _ (by omega), PUT_other _ _ _ _ (by omega),
      hrem3, hnh]
    omega
  · exact add_free_chainb _ (bp - psz) (a ++ b) chain3 hpwRest hsepbp

/-- Coalesce case 4 (both neighbors free), with the previous block before
the next block in the free-list order: both are removed, the three
blocks merge into one (payload bp − psz) whose header and footer read
sz + psz + nsz, and the merged block is inserted. -/
theorem coalesce_case4a (h : Heap) (bp sz psz nsz : Nat) (a b c : List Nat)
    (hsz : sz % 16 = 0) (hpsz : psz % 16 = 0) (hnsz : nsz % 16 = 0)
    (hsz32 : 32 ≤ sz) (hpsz32 : 32 ≤ psz) (hnsz32 : 32 ≤ nsz)
    (hbp : psz + 16 ≤ bp)
    (hhdr : h.mem (bp - 8) = sz)
    (hpf : h.mem (bp - 16) = psz) (hph : h.mem (bp - psz - 8) = psz)
    (hnh : h.mem (bp + sz - 8) = nsz) (hnf : h.mem (bp + sz + nsz - 16) = nsz)
    (hPP : h.mem (bp - psz - 16) % 2 = 1) (hNN : h.mem (bp + sz + nsz - 8) % 2 = 1)
    (hchain : chainb h.mem h.free_listp
      (a ++ (bp - psz) :: (b ++ (bp + sz) :: c)) h.free_listp = true)
    (hpw : List.Pairwise sep (h.free_listp :: a ++ (bp - psz) :: (b ++ (bp + sz) :: c)))
    (hsepbp : ∀ z ∈ h.free_listp :: a ++ b ++ c, sep (bp - psz) z)
    (htag : ∀ z ∈ h.free_listp :: a ++ b ++ c,
      ∀ t ∈ [bp - psz - 16, bp - psz - 8, bp - 16, bp - 8,
        bp + sz + nsz - 16, bp + sz + nsz - 8], z ≠ t ∧ z + 8 ≠ t) :
    (coalesce h bp).1 = bp - psz ∧
    (coalesce h bp).2.mem (bp - psz - 8) = sz + psz + nsz ∧
    (coalesce h bp).2.mem (bp + sz + nsz - 16) = sz + psz + nsz ∧
    (coalesce h bp).2.mem (bp - psz - 16) % 2 = 1 ∧
    (coalesce h bp).2.mem (bp + sz + nsz - 8) % 2 = 1 ∧
    chainb (coalesce h bp).2.mem h.free_listp ((bp - psz) :: (a ++ b ++ c))
      h.free_listp = true := by
  have f1 : GET_SIZE h.mem (bp - 8) = sz := by
    simp only [GET_SIZE, hhdr]; omega
  have f2 : GET_SIZE h.mem (bp - 16) = psz := by
    simp only [GET_SIZE, hpf]; omega
  have f3 : GET_SIZE h.mem (bp - psz - 8) = psz := by
    simp only [GET_SIZE, hph]; omega
  have f4 : GET_SIZE h.mem (bp + sz - 8) = nsz := by
    simp only [GET_SIZE, hnh]; omega
  have f5 : GET_SIZE h.mem (bp + sz + nsz - 16) = nsz := by
    simp only [GET_SIZE, hnf]; omega
  have ar1 : bp - psz + psz - 16 = bp - 16 := by omega
  have ga1 : GET_ALLOC h.mem (bp - 16) = 0 := by
    simp only [GET_ALLOC, hpf]; omega
  have ga2 : GET_ALLOC h.mem (bp + sz - 8) = 0 := by
    simp only [GET_ALLOC, hnh]; omega
  have g1m : (remove_free h (bp - psz)).mem (bp - 8) = h.mem (bp - 8) := by
    apply remove_free_frame_chain h (bp - psz) (bp - 8) a (b ++ (bp + sz) :: c) hchain hpw
    intro z hz
    have hz2 : z = bp + sz ∨ z ∈ h.free_listp :: a ++ b ++ c := by
      simp only [List.mem_cons, List.mem_append] at hz ⊢; tauto
    rcases hz2 with rfl | hz2
    · exact ⟨by omega, by omega⟩
    · exact htag z hz2 _ (by simp)
  have gs1 : GET_SIZE (remove_free h (bp - psz)).mem (bp - 8) = sz := by
    simp only [GET_SIZE, g1m, hhdr]; omega
  have chain1 : chainb (remove_free h (bp - psz)).mem h.free_listp
      (a ++ (b ++ (bp + sz) :: c)) h.free_listp = true :=
    remove_free_chainb h (bp - psz) a (b ++ (bp + sz) :: c) hchain hpw
  have chain1a : chainb (remove_free h (bp - psz)).mem h.free_listp
      ((a ++ b) ++ (bp + sz) :: c) h.free_listp = true := by
    rw [List.append_assoc]
    exact chain1
  have hpw1 : List.Pairwise sep (h.free_listp :: (a ++ b) ++ (bp + sz) :: c) := by
    have hsub : (h.free_listp :: (a ++ b) ++ (bp + sz) :: c).Sublist
        (h.free_listp :: a ++ (bp - psz) :: (b ++ (bp + sz) :: c)) := by
      rw [List.cons_append, List.cons_append, List.append_assoc]
      exact List.Sublist.cons₂ _ (List.Sublist.append_left
        (List.sublist_cons_self _ _) a)
    exact List.Pairwise.sublist hsub hpw
  have frameBoth : ∀ t, (∀ z ∈ h.free_listp :: a ++ b ++ c, z ≠ t ∧ z + 8 ≠ t) →
      (bp + sz ≠ t ∧ bp + sz + 8 ≠ t) →
      (remove_free (remove_free h (bp - psz)) (bp + sz)).mem t = h.mem t := by
    intro t htg hN
    rw [remove_free_frame_chain (remove_free h (bp - psz)) (bp + sz) t (a ++ b) c
      chain1a hpw1 (fun z hz => htg z hz)]
    apply remove_free_frame_chain h (bp - psz) t a (b ++ (bp + sz) :: c) hchain hpw
    intro z hz
    have hz2 : z = bp + sz ∨ z ∈ h.free_listp :: a ++ b ++ c := by
      simp only [List.mem_cons, List.mem_append] at hz ⊢; tauto
    rcases hz2 with rfl | hz2
    · exact hN
    · exact htg z hz2
  have g2m := frameBoth (bp - 16) (fun z hz => htag z hz _ (by simp)) ⟨by omega, by omega⟩
  have gs2 : GET_SIZE (remove_free (remove_free h (bp - psz)) (bp + sz)).mem
      (bp - 16) = psz := by
    simp only [GET_SIZE, g2m, hpf]; omega
  have hco : coalesce h bp = (bp - psz,
      add_free (putMem (putMem (remove_free (remove_free h (bp - psz)) (bp + sz))
        (bp - psz - 8) (sz + psz + nsz)) (bp + sz + nsz - 16) (sz + psz + nsz))
        (bp - psz)) := by
    simp only [coalesce, HDRP, FTRP, NEXT_BLKP, PREV_BLKP, WSIZE, DSIZE,
      f1, f2, f3, f4, f5, ar1, ga1, ga2, gs1, gs2, pack_zero]
    rw [if_neg (by simp), if_neg (by simp), if_neg (by simp)]
    have hF2 : bp - psz + GET_SIZE (putMem (remove_free (remove_free h (bp - psz))
        (bp + sz)) (bp - psz - 8) (sz + psz + nsz)).mem (bp - psz - 8) - 16
        = bp + sz + nsz - 16 := by
      rw [putMem_mem, GET_SIZE_put_eq]
      omega
    rw [hF2]
  rw [hco]
  have chain2 : chainb (remove_free (remove_free h (bp - psz)) (bp + sz)).mem
      h.free_listp ((a ++ b) ++ c) h.free_listp = true :=
    remove_free_chainb (remove_free h (bp - psz)) (bp + sz) (a ++ b) c chain1a hpw1
  have hpwRest : List.Pairwise sep (h.free_listp :: (a ++ b) ++ c) := by
    have hsub : (h.free_listp :: (a ++ b) ++ c).Sublist
        (h.free_listp :: (a ++ b) ++ (bp + sz) :: c) :=
      List.Sublist.cons₂ _ (List.Sublist.append_left (List.sublist_cons_self _ c) (a ++ b))
    exact List.Pairwise.sublist hsub hpw1
  have chain3 : chainb (putMem (putMem (remove_free (remove_free h (bp - psz)) (bp + sz))
      (bp - psz - 8) (sz + psz + nsz)) (bp + sz + nsz - 16) (sz + psz + nsz)).mem
      h.free_listp ((a ++ b) ++ c) h.free_listp = true := by
    have cT2a : ∀ z ∈ h.free_listp :: ((a ++ b) ++ c), z + 8 ≠ bp + sz + nsz - 16 :=
      fun z hz => (htag z hz _ (by simp)).2
    have cT2b : ∀ z ∈ ((a ++ b) ++ c) ++ [h.free_listp], z ≠ bp + sz + nsz - 16 := by
      intro z hz
      have hz2 : z ∈ h.free_listp :: a ++ b ++ c := by
        simp only [List.mem_cons, List.mem_append, List.mem_singleton] at hz ⊢; tauto
      exact (htag z hz2 _ (by simp)).1
    have cT1a : ∀ z ∈ h.free_listp :: ((a ++ b) ++ c), z + 8 ≠ bp - psz - 8 :=
      fun z hz => (htag z hz _ (by simp)).2
    have cT1b : ∀ z ∈ ((a ++ b) ++ c) ++ [h.free_listp], z ≠ bp - psz - 8 := by
      intro z hz
      have hz2 : z ∈ h.free_listp :: a ++ b ++ c := by
        simp only [List.mem_cons, List.mem_append, List.mem_singleton] at hz ⊢; tauto
      exact (htag z hz2 _ (by simp)).1
    rw [putMem_mem, putMem_mem, chainb_put _ _ _ _ _ _ cT2a cT2b,
      chainb_put _ _ _ _ _ _ cT1a cT1b]
    exact chain2
  refine ⟨rfl, ?_, ?_, ?_, ?_, ?_⟩
  · rw [add_free_frame_chain _ (bp - psz) (bp - psz - 8) ((a ++ b) ++ c) chain3
      (fun z hz => htag z hz _ (by simp)) (by omega) (by omega)]
    rw [putMem_mem, putMem_mem, PUT_other _ _ _ _ (by omega), PUT_same]
  · rw [add_free_frame_chain _ (bp - psz) (bp + sz + nsz - 16) ((a ++ b) ++ c) chain3
      (fun z hz => htag z hz _ (by simp)) (by omega) (by omega)]
    rw [putMem_mem, putMem_mem, PUT_same]
  · rw [add_free_frame_chain _ (bp - psz) (bp - psz - 16) ((a ++ b) ++ c) chain3
      (fun z hz => htag z hz _ (by simp)) (by omega) (by omega)]
    rw [putMem_mem, putMem_mem, PUT_other _ _ _ _ (by omega), PUT_other _ _ _ _ (by omega),
      frameBoth (bp - psz - 16) (fun z hz => htag z hz _ (by simp)) ⟨by omega, by omega⟩]
    exact hPP
  · rw [add_free_frame_chain _ (bp - psz) (bp + sz + nsz - 8) ((a ++ b) ++ c) chain3
      (fun z hz => htag z hz _ (by simp)) (by omega) (by omega)]
    rw [putMem_mem, putMem_mem, PUT_other _ _ _ _ (by omega), PUT_other _ _ _ _ (by omega),
      frameBoth (bp + sz + nsz - 8) (fun z hz => htag z hz _ (by simp)) ⟨by omega, by omega⟩]
    exact hNN
  · exact add_free_chainb _ (bp - psz) ((a ++ b) ++ c) chain3 hpwRest hsepbp

/-- Coalesce case 4 (both neighbors free), with the next block before the
previous block in the free-list order: same result as case 4a. -/
theorem coalesce_case4b (h : Heap) (bp sz psz nsz : Nat) (a b c : List Nat)
    (hsz : sz % 16 = 0) (hpsz : psz % 16 = 0) (hnsz : nsz % 16 = 0)
    (hsz32 : 32 ≤ sz) (hpsz32 : 32 ≤ psz) (hnsz32 : 32 ≤ nsz)
    (hbp : psz + 16 ≤ bp)
    (hhdr : h.mem (bp - 8) = sz)
    (hpf : h.mem (bp - 16) = psz) (hph : h.mem (bp - psz - 8) = psz)
    (hnh : h.mem (bp + sz - 8) = nsz) (hnf : h.mem (bp + sz + nsz - 16) = nsz)
    (hPP : h.mem (bp - psz - 16) % 2 = 1) (hNN : h.mem (bp + sz + nsz - 8) % 2 = 1)
    (hchain : chainb h.mem h.free_listp
      (a ++ (bp + sz) :: (b ++ (bp - psz) :: c)) h.free_listp = true)
    (hpw : List.Pairwise sep (h.free_listp :: a ++ (bp + sz) :: (b ++ (bp - psz) :: c)))
    (hsepbp : ∀ z ∈ h.free_listp :: a ++ b ++ c, sep (bp - psz) z)
    (htag : ∀ z ∈ h.free_listp :: a ++ b ++ c,
      ∀ t ∈ [bp - psz - 16, bp - psz - 8, bp - 16, bp - 8,
        bp + sz + nsz - 16, bp + sz + nsz - 8], z ≠ t ∧ z + 8 ≠ t) :
    (coalesce h bp).1 = bp - psz ∧
    (coalesce h bp).2.mem (bp - psz - 8) = sz + psz + nsz ∧
    (coalesce h bp).2.mem (bp + sz + nsz - 16) = sz + psz + nsz ∧
    (coalesce h bp).2.mem (bp - psz - 16) % 2 = 1 ∧
    (coalesce h bp).2.mem (bp + sz + nsz - 8) % 2 = 1 ∧
    chainb (coalesce h bp).2.mem h.free_listp ((bp - psz) :: (a ++ b ++ c))
      h.free_listp = true := by
  have f1 : GET_SIZE h.mem (bp - 8) = sz := by
    simp only [GET_SIZE, hhdr]; omega
  have f2 : GET_SIZE h.mem (bp - 16) = psz := by
    simp only [GET_SIZE, hpf]; omega
  have f3 : GET_SIZE h.mem (bp - psz - 8) = psz := by
    simp only [GET_SIZE, hph]; omega
  have f4 : GET_SIZE h.mem (bp + sz - 8) = nsz := by
    simp only [GET_SIZE, hnh]; omega
  have f5 : GET_SIZE h.mem (bp + sz + nsz - 16) = nsz := by
    simp only [GET_SIZE, hnf]; omega
  have ar1 : bp - psz + psz - 16 = bp - 16 := by omega
  have ga1 : GET_ALLOC h.mem (bp - 16) = 0 := by
    simp only [GET_ALLOC, hpf]; omega
  have ga2 : GET_ALLOC h.mem (bp + sz - 8) = 0 := by
    simp only [GET_ALLOC, hnh]; omega
  have hchain2 : chainb h.mem h.free_listp
      ((a ++ (bp + sz) :: b) ++ (bp - psz) :: c) h.free_listp = true := by
    rw [List.append_assoc, List.cons_append]
    exact hchain
  have hpw2 : List.Pairwise sep
      (h.free_listp :: (a ++ (bp + sz) :: b) ++ (bp - psz) :: c) := by
    show List.Pairwise sep
      (h.free_listp :: ((a ++ (bp + sz) :: b) ++ (bp - psz) :: c))
    rw [List.append_assoc]
    exact hpw
  have g1m : (remove_free h (bp - psz)).mem (bp - 8) = h.mem (bp - 8) := by
    apply remove_free_frame_chain h (bp - psz) (bp - 8) (a ++ (bp + sz) :: b) c
      hchain2 hpw2
    intro z hz
    have hz2 : z = bp + sz ∨ z ∈ h.free_listp :: a ++ b ++ c := by
      simp only [List.mem_cons, List.mem_append] at hz ⊢; tauto
    rcases hz2 with rfl | hz2
    · exact ⟨by omega, by omega⟩
    · exact htag z hz2 _ (by simp)
  have gs1 : GET_SIZE (remove_free h (bp - psz)).mem (bp - 8) = sz := by
    simp only [GET_SIZE, g1m, hhdr]; omega
  have chain1 : chainb (remove_free h (bp - psz)).mem h.free_listp
      ((a ++ (bp + sz) :: b) ++ c) h.free_listp = true :=
    remove_free_chainb h (bp - psz) (a ++ (bp + sz) :: b) c hchain2 hpw2
  rw [List.append_assoc, List.cons_append] at chain1
  have hpw1 : List.Pairwise sep (h.free_listp :: a ++ (bp + sz) :: (b ++ c)) := by
    have hsub : (h.free_listp :: a ++ (bp + sz) :: (b ++ c)).Sublist
        (h.free_listp :: a ++ (bp + sz) :: (b ++ (bp - psz) :: c)) :=
      List.Sublist.cons₂ _ (List.Sublist.append_left (List.Sublist.cons₂ _
        (List.Sublist.append_left (List.sublist_cons_self _ _) b)) a)
    exact List.Pairwise.sublist hsub hpw
  have frameBoth : ∀ t, (∀ z ∈ h.free_listp :: a ++ b ++ c, z ≠ t ∧ z + 8 ≠ t) →
      (bp + sz ≠ t ∧ bp + sz + 8 ≠ t) →
      (remove_free (remove_free h (bp - psz)) (bp + sz)).mem t = h.mem t := by
    intro t htg hN
    rw [remove_free_frame_chain (remove_free h (bp - psz)) (bp + sz) t a (b ++ c)
      chain1 hpw1 ?side]
    case side =>
      intro z hz
      have hz2 : z ∈ h.free_listp :: a ++ b ++ c := by
        simp only [List.mem_cons, List.mem_append] at hz ⊢; tauto
      exact htg z hz2
    apply remove_free_frame_chain h (bp - psz) t (a ++ (bp + sz) :: b) c hchain2 hpw2
    intro z hz
    have hz2 : z = bp + sz ∨ z ∈ h.free_listp :: a ++ b ++ c := by
      simp only [List.mem_cons, List.mem_append] at hz ⊢; tauto
    rcases hz2 with rfl | hz2
    · exact hN
    · exact htg z hz2
  have g2m := frameBoth (bp - 16) (fun z hz => htag z hz _ (by simp)) ⟨by omega, by omega⟩
  have gs2 : GET_SIZE (remove_free (remove_free h (bp - psz)) (bp + sz)).mem
      (bp - 16) = psz := by
    simp only [GET_SIZE, g2m, hpf]; omega
  have hco : coalesce h bp = (bp - psz,
      add_free (putMem (putMem (remove_free (remove_free h (bp - psz)) (bp + sz))
        (bp - psz - 8) (sz + psz + nsz)) (bp + sz + nsz - 16) (sz + psz + nsz))
        (bp - psz)) := by
    simp only [coalesce, HDRP, FTRP, NEXT_BLKP, PREV_BLKP, WSIZE, DSIZE,
      f1, f2, f3, f4, f5, ar1, ga1, ga2, gs1, gs2, pack_zero]
    rw [if_neg (by simp), if_neg (by simp), if_neg (by simp)]
    have hF2 : bp - psz + GET_SIZE (putMem (remove_free (remove_free h (bp - psz))
        (bp + sz)) (bp - psz - 8) (sz + psz + nsz)).mem (bp - psz - 8) - 16
        = bp + sz + nsz - 16 := by
      rw [putMem_mem, GET_SIZE_put_eq]
      omega
    rw [hF2]
  rw [hco]
  have chain2 : chainb (remove_free (remove_free h (bp - psz)) (bp + sz)).mem
      h.free_listp (a ++ (b ++ c)) h.free_listp = true :=
    remove_free_chainb (remove_free h (bp - psz)) (bp + sz) a (b ++ c) chain1 hpw1
  rw [← List.append_assoc] at chain2
  have hpwRest : List.Pairwise sep (h.free_listp :: (a ++ b) ++ c) := by
    have hsub : (h.free_listp :: a ++ (b ++ c)).Sublist
        (h.free_listp :: a ++ (bp + sz) :: (b ++ c)) :=
      List.Sublist.cons₂ _ (List.Sublist.append_left (List.sublist_cons_self _ _) a)
    have := List.Pairwise.sublist hsub hpw1
    rw [← List.append_assoc] at this
    exact this
  have chain3 : chainb (putMem (putMem (remove_free (remove_free h (bp - psz)) (bp + sz))
      (bp - psz - 8) (sz + psz + nsz)) (bp + sz + nsz - 16) (sz + psz + nsz)).mem
      h.free_listp ((a ++ b) ++ c) h.free_listp = true := by
    have cT2a : ∀ z ∈ h.free_listp :: ((a ++ b) ++ c), z + 8 ≠ bp + sz + nsz - 16 :=
      fun z hz => (htag z hz _ (by simp)).2
    have cT2b : ∀ z ∈ ((a ++ b) ++ c) ++ [h.free_listp], z ≠ bp + sz + nsz - 16 := by
      intro z hz
      have hz2 : z ∈ h.free_listp :: a ++ b ++ c := by
        simp only [List.mem_cons, List.mem_append, List.mem_singleton] at hz ⊢; tauto
      exact (htag z hz2 _ (by simp)).1
    have cT1a : ∀ z ∈ h.free_listp :: ((a ++ b) ++ c), z + 8 ≠ bp - psz - 8 :=
      fun z hz => (htag z hz _ (by simp)).2
    have cT1b : ∀ z ∈ ((a ++ b) ++ c) ++ [h.free_listp], z ≠ bp - psz - 8 := by
      intro z hz
      have hz2 : z ∈ h.free_listp :: a ++ b ++ c := by
        simp only [List.mem_cons, List.mem_append, List.mem_singleton] at hz ⊢; tauto
      exact (htag z hz2 _ (by simp)).1
    rw [putMem_mem, putMem_mem, chainb_put _ _ _ _ _ _ cT2a cT2b,
      chainb_put _ _ _ _ _ _ cT1a cT1b]
    exact chain2
  refine ⟨rfl, ?_, ?_, ?_, ?_, ?_⟩
  · rw [add_free_frame_chain _ (bp - psz) (bp - psz - 8) ((a ++ b) ++ c) chain3
      (fun z hz => htag z hz _ (by simp)) (by omega) (by omega)]
    rw [putMem_mem, putMem_mem, PUT_other _ _ _ _ (by omega), PUT_same]
  · rw [add_free_frame_chain _ (bp - psz) (bp + sz + nsz - 16) ((a ++ b) ++ c) chain3
      (fun z hz => htag z hz _ (by simp)) (by omega) (by omega)]
    rw [putMem_mem, putMem_mem, PUT_same]
  · rw [add_free_frame_chain _ (bp - psz) (bp - psz - 16) ((a ++ b) ++ c) chain3
      (fun z hz => htag z hz _ (by simp)) (by omega) (by omega)]
    rw [putMem_mem, putMem_mem, PUT_other _ _ _ _ (by omega), PUT_other _ _ _ _ (by omega),
      frameBoth (bp - psz - 16) (fun z hz => htag z hz _ (by simp)) ⟨by omega, by omega⟩]
    exact hPP
  · rw [add_free_frame_chain _ (bp - psz) (bp + sz + nsz - 8) ((a ++ b) ++ c) chain3
      (fun z hz => htag z hz _ (by simp)) (by omega) (by omega)]
    rw [putMem_mem, putMem_mem, PUT_other _ _ _ _ (by omega), PUT_other _ _ _ _ (by omega),
      frameBoth (bp + sz + nsz - 8) (fun z hz => htag z hz _ (by simp)) ⟨by omega, by omega⟩]
    exact hNN
  · exact add_free_chainb _ (bp - psz) ((a ++ b) ++ c) chain3 hpwRest hsepbp

/-- C8: the coalescing state machine.  For a newly freed block bp of size
sz whose physical previous block has size psz and next block has size
nsz, coalesce inspects the two allocation bits and in each of the four
cases removes exactly the free neighbors from the free list and inserts
exactly one free block covering the merged extent: its payload is bp
(cases 1 and 2) or bp − psz (cases 3 and 4), its header and footer both
hold the sum of the merged sizes with allocation bit 0, the rest of the
free list is untouched, and afterward the physical neighbors of the
resulting block (the footer before it and the header after it) are both
allocated.  Case 4 is stated for both relative orders of the two
neighbors inside the free list. -/
theorem c8_coalesce_cases :
    (∀ (h : Heap) (bp sz psz nsz : Nat) (l : List Nat),
      sz % 16 = 0 → psz % 16 = 0 → nsz % 16 = 0 → 32 ≤ sz → 32 ≤ psz →
      psz + 16 ≤ bp →
      h.mem (bp - 8) = sz → h.mem (bp + sz - 16) = sz →
      h.mem (bp - 16) = psz + 1 → h.mem (bp - psz - 8) = psz + 1 →
      h.mem (bp + sz - 8) = nsz + 1 →
      chainb h.mem h.free_listp l h.free_listp = true →
      List.Pairwise sep (h.free_listp :: l) →
      (∀ z ∈ h.free_listp :: l, sep bp z) →
      (∀ z ∈ h.free_listp :: l,
        ∀ t ∈ [bp - 16, bp - 8, bp + sz - 16, bp + sz - 8], z ≠ t ∧ z + 8 ≠ t) →
      (coalesce h bp).1 = bp ∧
      (coalesce h bp).2.mem (bp - 8) = sz ∧
      (coalesce h bp).2.mem (bp + sz - 16) = sz ∧
      (coalesce h bp).2.mem (bp - 16) % 2 = 1 ∧
      (coalesce h bp).2.mem (bp + sz - 8) % 2 = 1 ∧
      chainb (coalesce h bp).2.mem h.free_listp (bp :: l) h.free_listp = true) ∧
    (∀ (h : Heap) (bp sz psz nsz : Nat) (a b : List Nat),
      sz % 16 = 0 → psz % 16 = 0 → nsz % 16 = 0 → 32 ≤ sz → 32 ≤ psz → 32 ≤ nsz →
      psz + 16 ≤ bp →
      h.mem (bp - 8) = sz →
      h.mem (bp - 16) = psz + 1 → h.mem (bp - psz - 8) = psz + 1 →
      h.mem (bp + sz - 8) = nsz →
      h.mem (bp + sz + nsz - 8) % 2 = 1 →
      chainb h.mem h.free_listp (a ++ (bp + sz) :: b) h.free_listp = true →
      List.Pairwise sep (h.free_listp :: a ++ (bp + sz) :: b) →
      (∀ z ∈ h.free_listp :: a ++ b, sep bp z) →
      (∀ z ∈ h.free_listp :: a ++ b,
        ∀ t ∈ [bp - 16, bp - 8, bp + sz + nsz - 16, bp + sz + nsz - 8],
          z ≠ t ∧ z + 8 ≠ t) →
      (coalesce h bp).1 = bp ∧
      (coalesce h bp).2.mem (bp - 8) = sz + nsz ∧
      (coalesce h bp).2.mem (bp + sz + nsz - 16) = sz + nsz ∧
      (coalesce h bp).2.mem (bp - 16) % 2 = 1 ∧
      (coalesce h bp).2.mem (bp + sz + nsz - 8) % 2 = 1 ∧
      chainb (coalesce h bp).2.mem h.free_listp (bp :: (a ++ b)) h.free_listp = true) ∧
    (∀ (h : Heap) (bp sz psz nsz : Nat) (a b : List Nat),
      sz % 16 = 0 → psz % 16 = 0 → nsz % 16 = 0 → 32 ≤ sz → 32 ≤ psz →
      psz + 16 ≤ bp →
      h.mem (bp - 8) = sz →
      h.mem (bp - 16) = psz → h.mem (bp - psz - 8) = psz →
      h.mem (bp + sz - 8) = nsz + 1 →
      h.mem (bp - psz - 16) % 2 = 1 →
      chainb h.mem h.free_listp (a ++ (bp - psz) :: b) h.free_listp = true →
      List.Pairwise sep (h.free_listp :: a ++ (bp - psz) :: b) →
      (∀ z ∈ h.free_listp :: a ++ b, sep (bp - psz) z) →
      (∀ z ∈ h.free_listp :: a ++ b,
        ∀ t ∈ [bp - psz - 16, bp - psz - 8, bp + sz - 16, bp + sz - 8],
          z ≠ t ∧ z + 8 ≠ t) →
      (coalesce h bp).1 = bp - psz ∧
      (coalesce h bp).2.mem (bp - psz - 8) = sz + psz ∧
      (coalesce h bp).2.mem (bp + sz - 16) = sz + psz ∧
      (coalesce h bp).2.mem (bp - psz - 16) % 2 = 1 ∧
      (coalesce h bp).2.mem (bp + sz - 8) % 2 = 1 ∧
      chainb (coalesce h bp).2.mem h.free_listp ((bp - psz) :: (a ++ b))
        h.free_listp = true) ∧
    (∀ (h : Heap) (bp sz psz nsz : Nat) (a b c : List Nat),
      sz % 16 = 0 → psz % 16 = 0 → nsz % 16 = 0 → 32 ≤ sz → 32 ≤ psz → 32 ≤ nsz →
      psz + 16 ≤ bp →
      h.mem (bp - 8) = sz →
      h.mem (bp - 16) = psz → h.mem (bp - psz - 8) = psz →
      h.mem (bp + sz - 8) = nsz → h.mem (bp + sz + nsz - 16) = nsz →
      h.mem (bp - psz - 16) % 2 = 1 → h.mem (bp + sz + nsz - 8) % 2 = 1 →
      ((chainb h.mem h.free_listp (a ++ (bp - psz) :: (b ++ (bp + sz) :: c))
          h.free_listp = true ∧
        List.Pairwise sep (h.free_listp :: a ++ (bp - psz) :: (b ++ (bp + sz) :: c))) ∨
       (chainb h.mem h.free_listp (a ++ (bp + sz) :: (b ++ (bp - psz) :: c))
          h.free_listp = true ∧
        List.Pairwise sep (h.free_listp :: a ++ (bp + sz) :: (b ++ (bp - psz) :: c)))) →
      (∀ z ∈ h.free_listp :: a ++ b ++ c, sep (bp - psz) z) →
      (∀ z ∈ h.free_listp :: a ++ b ++ c,
        ∀ t ∈ [bp - psz - 16, bp - psz - 8, bp - 16, bp - 8,
          bp + sz + nsz - 16, bp + sz + nsz - 8], z ≠ t ∧ z + 8 ≠ t) →
      (coalesce h bp).1 = bp - psz ∧
      (coalesce h bp).2.mem (bp - psz - 8) = sz + psz + nsz ∧
      (coalesce h bp).2.mem (bp + sz + nsz - 16) = sz + psz + nsz ∧
      (coalesce h bp).2.mem (bp - psz - 16) % 2 = 1 ∧
      (coalesce h bp).2.mem (bp + sz + nsz - 8) % 2 = 1 ∧
      chainb (coalesce h bp).2.mem h.free_listp ((bp - psz) :: (a ++ b ++ c))
        h.free_listp = true) := by
  refine ⟨?_, ?_, ?_, ?_⟩
  · intro h bp sz psz nsz l h1 h2 h3 h4 h5 h6 h7 h8 h9 h10 h11 h12 h13 h14 h15
    exact coalesce_case1 h bp sz psz nsz l h1 h2 h3 h4 h5 h6 h7 h8 h9 h10 h11 h12 h13 h14 h15
  · intro h bp sz psz nsz a b h1 h2 h3 h4 h5 h6 h7 h8 h9 h10 h11 h12 h13 h14 h15 h16
    exact coalesce_case2 h bp sz psz nsz a b h1 h2 h3 h4 h5 h6 h7 h8 h9 h10 h11 h12 h13 h14 h15 h16
  · intro h bp sz psz nsz a b h1 h2 h3 h4 h5 h6 h7 h8 h9 h10 h11 h12 h13 h14 h15
    exact coalesce_case3 h bp sz psz nsz a b h1 h2 h3 h4 h5 h6 h7 h8 h9 h10 h11 h12 h13 h14 h15
  · intro h bp sz psz nsz a b c h1 h2 h3 h4 h5 h6 h7 h8 h9 h10 h11 h12 h13 h14 hor h16 h17
    rcases hor with ⟨hc, hp⟩ | ⟨hc, hp⟩
    · exact coalesce_case4a h bp sz psz nsz a b c h1 h2 h3 h4 h5 h6 h7 h8 h9 h10
        h11 h12 h13 h14 hc hp h16 h17
    · exact coalesce_case4b h bp sz psz nsz a b c h1 h2 h3 h4 h5 h6 h7 h8 h9 h10
        h11 h12 h13 h14 hc hp h16 h17

/-- Concrete heap for the C8 witness, case 1: freed block at payload 104
(size 32) between two allocated 32-byte blocks, empty free list. -/
def heapC1 : Heap :=
  { mem := PUT (PUT (PUT (PUT (PUT (PUT (PUT (fun _ => 0) 32 32) 40 32) 64 33)
      88 33) 96 32) 120 32) 128 33,
    brk := 0, limit := 0, heap_listp := 16, free_listp := 32 }

/-- Concrete heap for the C8 witness, case 2: next block (payload 136,
size 32) free and alone on the free list. -/
def heapC2 : Heap :=
  { mem := PUT (PUT (PUT (PUT (PUT (PUT (PUT (PUT (PUT (fun _ => 0) 32 136) 40 136)
      136 32) 144 32) 64 33) 88 33) 96 32) 128 32) 160 33,
    brk := 0, limit := 0, heap_listp := 16, free_listp := 32 }

/-- Concrete heap for the C8 witness, case 3: previous block (payload 72,
size 32) free and alone on the free list. -/
def heapC3 : Heap :=
  { mem := PUT (PUT (PUT (PUT (PUT (PUT (PUT (PUT (PUT (fun _ => 0) 32 72) 40 72)
      72 32) 80 32) 56 33) 64 32) 88 32) 96 32) 128 33,
    brk := 0, limit := 0, heap_listp := 16, free_listp := 32 }

/-- Concrete heap for the C8 witness, case 4: both neighbors free, free
list [72, 136]. -/
def heapC4 : Heap :=
  { mem := PUT (PUT (PUT (PUT (PUT (PUT (PUT (PUT (PUT (PUT (PUT (PUT (PUT
      (fun _ => 0) 40 72) 72 32) 80 136) 136 72) 144 32) 32 136) 56 33) 64 32)
      88 32) 96 32) 128 32) 152 32) 160 33,
    brk := 0, limit := 0, heap_listp := 16, free_listp := 32 }

/-- C8 witness: all four cases at concrete heaps (bp = 104, all three
block sizes 32). -/
theorem c8_witness :
    ((coalesce heapC1 104).1 = 104 ∧
      (coalesce heapC1 104).2.mem 96 = 32 ∧ (coalesce heapC1 104).2.mem 120 = 32 ∧
      (coalesce heapC1 104).2.mem 88 % 2 = 1 ∧ (coalesce heapC1 104).2.mem 128 % 2 = 1 ∧
      chainb (coalesce heapC1 104).2.mem 32 [104] 32 = true) ∧
    ((coalesce heapC2 104).1 = 104 ∧
      (coalesce heapC2 104).2.mem 96 = 64 ∧ (coalesce heapC2 104).2.mem 152 = 64 ∧
      (coalesce heapC2 104).2.mem 88 % 2 = 1 ∧ (coalesce heapC2 104).2.mem 160 % 2 = 1 ∧
      chainb (coalesce heapC2 104).2.mem 32 [104] 32 = true) ∧
    ((coalesce heapC3 104).1 = 72 ∧
      (coalesce heapC3 104).2.mem 64 = 64 ∧ (coalesce heapC3 104).2.mem 120 = 64 ∧
      (coalesce heapC3 104).2.mem 56 % 2 = 1 ∧ (coalesce heapC3 104).2.mem 128 % 2 = 1 ∧
      chainb (coalesce heapC3 104).2.mem 32 [72] 32 = true) ∧
    ((coalesce heapC4 104).1 = 72 ∧
      (coalesce heapC4 104).2.mem 64 = 96 ∧ (coalesce heapC4 104).2.mem 152 = 96 ∧
      (coalesce heapC4 104).2.mem 56 % 2 = 1 ∧ (coalesce heapC4 104).2.mem 160 % 2 = 1 ∧
      chainb (coalesce heapC4 104).2.mem 32 [72] 32 = true) := by
  have H1 := c8_coalesce_cases.1 heapC1 104 32 32 32 [] (by decide) (by decide)
    (by decide) (by decide) (by decide) (by decide) (by decide) (by decide) (by decide)
    (by decide) (by decide) (by decide) (by decide) (by decide) (by decide)
  have H2 := c8_coalesce_cases.2.1 heapC2 104 32 32 32 [] [] (by decide) (by decide)
    (by decide) (by decide) (by decide) (by decide) (by decide) (by decide) (by decide)
    (by decide) (by decide) (by decide) (by decide) (by decide) (by decide) (by decide)
  have H3 := c8_coalesce_cases.2.2.1 heapC3 104 32 32 32 [] [] (by decide) (by decide)
    (by decide) (by decide) (by decide) (by decide) (by decide) (by decide) (by decide)
    (by decide) (by decide) (by decide) (by decide) (by decide) (by decide)
  have H4 := c8_coalesce_cases.2.2.2 heapC4 104 32 32 32 [] [] [] (by decide) (by decide)
    (by decide) (by decide) (by decide) (by decide) (by decide) (by decide) (by decide)
    (by decide) (by decide) (by decide) (by decide) (by decide)
    (Or.inl ⟨by decide, by decide⟩) (by decide) (by decide)
  exact ⟨by simpa using H1, by simpa using H2, by simpa using H3, by simpa using H4⟩

/-- C9 witness: the post-init heap with limit 8192 cannot satisfy an
8192-byte request (adjusted 8208): no fit, and the 8208-byte extension
exceeds the limit, so malloc returns NULL and the state is unchanged. -/
theorem c9_witness :
    mm_malloc heap0 8192 50 = (none, heap0) ∧ mm_init 0 = none ∧ mm_init 100 = none := by
  refine ⟨?_, ?_, ?_⟩
  · exact c9_oom_atomicity.1 heap0 8192 50 (by decide) (by decide) (by rfl)
  · exact c9_oom_atomicity.2.1 0 (by decide)
  · exact c9_oom_atomicity.2.2 100 (by decide) (by decide)

end MM
